import Mathlib

/-!
Verification development for the GSTR-2B reconciliation engine
(src/services/reconciliationService.ts).

The embedding models spreadsheet cell values as a tagged union of strings,
exact rational numbers (idealizing IEEE doubles), and null; a record (a JS
object) is an association list from header strings to cell values whose update
semantics mirror JS objects and Maps (update-in-place keeps the original
position, a fresh key is appended).  Every definition below is a direct
translation of the corresponding function of the source file; comments cite
the source construct being modelled.
-/

set_option maxRecDepth 8000

namespace GSTR

/-- Cell values: a JS string, a finite JS number (modelled as an exact
rational), or null (also standing for an undefined field read where the
source checks both). -/
inductive CellVal where
  | str (s : String)
  | num (q : ℚ)
  | null
deriving DecidableEq

/-- A parsed row / JS object: header string to cell value, in insertion
order, with at most one binding per key in all reachable states. -/
abbrev Record := List (String × CellVal)

/-- Lookup in an association list (JS property read / Map.get). -/
def assocFind {α : Type} : List (String × α) → String → Option α
  | [], _ => none
  | (k1, v) :: rest, k => if k1 = k then some v else assocFind rest k

/-- JS property write / Map.set: overwrite in place if the key is present
(keeping its position), otherwise append the new binding. -/
def assocSet {α : Type} : List (String × α) → String → α → List (String × α)
  | [], k, v => [(k, v)]
  | (k1, v1) :: rest, k, v =>
      if k1 = k then (k1, v) :: rest else (k1, v1) :: assocSet rest k v

/-- JS delete / Map.delete: remove the first binding of the key. -/
def assocErase {α : Type} : List (String × α) → String → List (String × α)
  | [], _ => []
  | (k1, v1) :: rest, k =>
      if k1 = k then rest else (k1, v1) :: assocErase rest k

/-- Keys of an association list, in order. -/
def assocKeys {α : Type} (m : List (String × α)) : List String :=
  m.map Prod.fst

/-- JS String.prototype.trim: drop whitespace from both ends. -/
def trimStr (s : String) : String :=
  ⟨((s.data.dropWhile Char.isWhitespace).reverse.dropWhile Char.isWhitespace).reverse⟩

/-- JS String.prototype.toUpperCase, ASCII-idealized. -/
def upperStr (s : String) : String := ⟨s.data.map Char.toUpper⟩

/-- JS String.prototype.toLowerCase, ASCII-idealized. -/
def lowerStr (s : String) : String := ⟨s.data.map Char.toLower⟩

/-- JS s.replace(/\s/g, ''): delete every whitespace character. -/
def stripWs (s : String) : String := ⟨s.data.filter (fun c => !c.isWhitespace)⟩

/-- JS s.replace(/,/g, ''): delete every comma (thousand separators). -/
def stripCommas (s : String) : String := ⟨s.data.filter (fun c => c != ',')⟩

/-- Decimal digit test for the parseFloat model. -/
def isDigitCh (c : Char) : Bool := '0' ≤ c && c ≤ '9'

/-- Numeric value of a decimal digit character. -/
def digitVal (c : Char) : ℕ := c.toNat - '0'.toNat

/-- Value of a digit string read left to right. -/
def digitsToNat (l : List Char) : ℕ :=
  l.foldl (fun acc c => acc * 10 + digitVal c) 0

/-- Exponent part of the parseFloat model: an optional e/E followed by an
optional sign and digits; an e with no digits after it contributes nothing,
exactly as JS parseFloat stops before an incomplete exponent. -/
def expValue (l : List Char) : ℤ :=
  match l with
  | c :: rest =>
      if c = 'e' ∨ c = 'E' then
        match rest with
        | '-' :: r2 =>
            let d := r2.takeWhile isDigitCh
            if d.isEmpty then 0 else -(digitsToNat d : ℤ)
        | '+' :: r2 =>
            let d := r2.takeWhile isDigitCh
            if d.isEmpty then 0 else (digitsToNat d : ℤ)
        | r2 =>
            let d := r2.takeWhile isDigitCh
            if d.isEmpty then 0 else (digitsToNat d : ℤ)
      else 0
  | [] => 0

/-- JS parseFloat on the longest numeric prefix: optional leading whitespace,
optional sign, digits with an optional fractional part, optional exponent.
Returns none where JS returns NaN (no digits at all).  The Infinity literal
and IEEE rounding are idealized away: values are exact rationals. -/
def jsParseFloat (s : String) : Option ℚ :=
  let l := s.data.dropWhile Char.isWhitespace
  let sign : ℚ := match l with
    | '-' :: _ => -1
    | _ => 1
  let l1 := match l with
    | '-' :: rest => rest
    | '+' :: rest => rest
    | _ => l
  let ip := l1.takeWhile isDigitCh
  let l2 := l1.dropWhile isDigitCh
  let fp := match l2 with
    | '.' :: rest => rest.takeWhile isDigitCh
    | _ => []
  let l3 := match l2 with
    | '.' :: rest => rest.dropWhile isDigitCh
    | _ => l2
  if ip.isEmpty && fp.isEmpty then none
  else
    let mant : ℚ := (digitsToNat ip : ℚ) + (digitsToNat fp : ℚ) / (10 : ℚ) ^ fp.length
    some (sign * mant * (10 : ℚ) ^ expValue l3)

/-- JS String(v) for a cell value.  For numbers the rendering is the
canonical rational one, which agrees with JS for the integral amounts that
occur in practice; for null this gives the empty string, standing for the
source pattern String(x ?? ''). -/
def cellToString : CellVal → String
  | CellVal.str s => s
  | CellVal.num q => toString q
  | CellVal.null => ""

/-- Source pattern String(row[h] ?? ''): read a field and stringify it with
null/undefined collapsing to the empty string. -/
def fieldToString (r : Record) (h : String) : String :=
  cellToString ((assocFind r h).getD CellVal.null)

/-- getColumnData (source lines 27-32): 0 for a missing header or a
null/undefined cell, otherwise parseFloat of the comma-stripped string form;
NaN (none) coerces to 0.  A numeric cell round-trips through String and
parseFloat to itself. -/
def getColumnData (row : Record) (header : Option String) : ℚ :=
  match header with
  | none => 0
  | some h =>
      if h = "" then 0
      else
        match assocFind row h with
        | none => 0
        | some CellVal.null => 0
        | some (CellVal.num q) => q
        | some (CellVal.str s) => (jsParseFloat (stripCommas s)).getD 0

/-- JS truthiness of a field read: undefined, null, the empty string and the
number 0 are falsy. -/
def truthy : Option CellVal → Bool
  | none => false
  | some CellVal.null => false
  | some (CellVal.str s) => s != ""
  | some (CellVal.num q) => q != 0

/-- Source pattern (existing[h] || 0) where the field was already coerced to
a number by the first occurrence of its key: a numeric field reads as its
value (0 is falsy but the fallback is 0 as well), anything else as 0. -/
def jsOrZero : Option CellVal → ℚ
  | some (CellVal.num q) => q
  | _ => 0

/-- Uppercased trimmed string form of a key field, as computed at source
lines 50-51 for the consolidation key. -/
def consGstin (h : String) (r : Record) : String :=
  upperStr (trimStr (fieldToString r h))

/-- Consolidation key (source line 55): uppercased trimmed GSTIN, a dash,
uppercased trimmed invoice number. -/
def consKeyOf (gH bH : String) (r : Record) : String :=
  consGstin gH r ++ "-" ++ consGstin bH r

/-- Guard of source line 53: both key parts must be non-empty. -/
def validKeyB (gH bH : String) (r : Record) : Bool :=
  decide (consGstin gH r ≠ "" ∧ consGstin bH r ≠ "")

/-- Source line 47: numericHeaders.filter(h => !!h) keeps the resolved,
non-empty header names. -/
def resolvedHeaders (numericHeaders : List (Option String)) : List String :=
  (numericHeaders.filterMap id).filter (fun h => h != "")

/-- First-occurrence branch (source lines 61-64): clone the record and
coerce every resolved numeric header to its numeric value. -/
def initNumeric (record : Record) (numHs : List String) : Record :=
  numHs.foldl (fun r h => assocSet r h (CellVal.num (getColumnData record (some h)))) record

/-- Subsequent-occurrence branch (source lines 68-70): add the incoming
coerced value onto the running total of each resolved numeric header. -/
def addNumeric (record : Record) (numHs : List String) (existing : Record) : Record :=
  numHs.foldl
    (fun r h => assocSet r h (CellVal.num (jsOrZero (assocFind r h) + getColumnData record (some h))))
    existing

/-- Legal-name backfill (source lines 72-74): if a legal-name header is
resolved, the existing record's legal name is falsy and the incoming record's
is truthy, copy the incoming raw cell over. -/
def backfillLegal (record : Record) (lH : Option String) (updated : Record) : Record :=
  match lH with
  | none => updated
  | some lh =>
      if lh ≠ "" ∧ truthy (assocFind updated lh) = false ∧ truthy (assocFind record lh) = true then
        match assocFind record lh with
        | some v => assocSet updated lh v
        | none => updated
      else updated

/-- One iteration of the consolidation forEach (source lines 49-76) on the
insertion-ordered consolidation map.  A fresh key appends (Map.set on a new
key); an existing key is updated in place (the source mutates the stored
object through the reference returned by Map.get). -/
def consStep (gH bH : String) (lH : Option String) (numHs : List String)
    (acc : List (String × Record)) (record : Record) : List (String × Record) :=
  if consGstin gH record = "" ∨ consGstin bH record = "" then acc
  else
    match assocFind acc (consKeyOf gH bH record) with
    | none => acc ++ [(consKeyOf gH bH record, initNumeric record numHs)]
    | some existing =>
        assocSet acc (consKeyOf gH bH record) (backfillLegal record lH (addNumeric record numHs existing))

/-- The consolidation map after folding all records. -/
def consFold (gH bH : String) (lH : Option String) (numHs : List String)
    (records : List Record) : List (String × Record) :=
  records.foldl (consStep gH bH lH numHs) []

/-- consolidateInvoices (source lines 39-79): fold the records through the
map and return Array.from(map.values()), i.e. the records in key
first-appearance order. -/
def consolidateInvoices (records : List Record) (gH bH : String) (lH : Option String)
    (numericHeaders : List (Option String)) : List Record :=
  (consFold gH bH lH (resolvedHeaders numericHeaders) records).map Prod.snd

/-- Declared GSTR-2B report type (types.ts / source line 183). -/
inductive Gstr2bType where
  | B2B
  | CDNR
  | Other
deriving DecidableEq

/-- Resolved headers of one sheet, as produced by the findHeader calls at
source lines 194-210; the GSTIN and invoice-number headers are mandatory
(source lines 212-213), the rest may be unresolved. -/
structure SheetHeaders where
  gstinH : String
  billNoH : String
  legalNameH : Option String
  taxableH : Option String
  igstH : Option String
  cgstH : Option String
  sgstH : Option String
  cessH : Option String

/-- Match key (source lines 232-234 and 242-244): GSTIN and invoice number
stringified, concatenated, all whitespace removed, uppercased. -/
def matchKeyOf (gH bH : String) (r : Record) : String :=
  upperStr (stripWs (fieldToString r gH ++ fieldToString r bH))

/-- Exact-match map construction (source lines 230-236): Map.set per row,
skipping empty keys; a duplicate key overwrites the stored row (last write
wins) while keeping the first position. -/
def buildGstr2bMap (gh : SheetHeaders) (rows : List Record) : List (String × Record) :=
  rows.foldl
    (fun m row =>
      let key := matchKeyOf gh.gstinH gh.billNoH row
      if key = "" then m else assocSet m key row)
    []

/-- JS object spread of a field list over a base object, left to right. -/
def spreadInto (base : Record) (fields : List (String × CellVal)) : Record :=
  fields.foldl (fun r kv => assocSet r kv.1 kv.2) base

/-- Namespacing of the matched GSTR-2B row (source lines 268-270 and 318):
every key gains the GSTR2B_ prefix. -/
def renameGstrFields (r : Record) : Record :=
  r.map (fun kv => ("GSTR2B_" ++ kv.1, kv.2))

/-- toFixed(2) of the JS number type, on the exact rational model: round
half toward plus infinity at two decimals and print with exactly two
fractional digits. -/
def toFixed2 (q : ℚ) : String :=
  let n : ℤ := round (q * 100)
  (if n < 0 then "-" else "") ++ toString (n.natAbs / 100) ++ "." ++
    (if n.natAbs % 100 < 10 then "0" else "") ++ toString (n.natAbs % 100)

/-- Difference cell of a matched pair (source lines 275-279): the 0.00
string inside the tolerance band of 2, the two-decimal rendering outside. -/
def diffCell (d : ℚ) : String :=
  if |d| ≤ 2 then "0.00" else toFixed2 d

/-- The record pushed for an exact match (source lines 272-281): the books
row spread first, then the status, the five difference cells, then the
namespaced GSTR-2B fields. -/
def mkMatchedRecord (bh gh : SheetHeaders) (bookRow gstrRow : Record) : Record :=
  spreadInto bookRow
    ([("Recon Status", CellVal.str "Matched"),
      ("Diff Taxable Value (₹)",
        CellVal.str (diffCell (getColumnData bookRow bh.taxableH - getColumnData gstrRow gh.taxableH))),
      ("Diff Integrated Tax(₹)",
        CellVal.str (diffCell (getColumnData bookRow bh.igstH - getColumnData gstrRow gh.igstH))),
      ("Diff Central Tax(₹)",
        CellVal.str (diffCell (getColumnData bookRow bh.cgstH - getColumnData gstrRow gh.cgstH))),
      ("Diff State/UT Tax(₹)",
        CellVal.str (diffCell (getColumnData bookRow bh.sgstH - getColumnData gstrRow gh.sgstH))),
      ("Diff Cess(₹)",
        CellVal.str (diffCell (getColumnData bookRow bh.cessH - getColumnData gstrRow gh.cessH)))]
      ++ renameGstrFields gstrRow)

/-- State of the exact-match phase: the remaining map, the matched output,
and the rows passed on to the tolerant phase. -/
structure Phase1Out where
  map : List (String × Record)
  matched : List Record
  onlyInBooksInitial : List Record

/-- One iteration of the phase-1 forEach (source lines 241-286): a books row
whose match key is in the map is merged and consumes (deletes) the map
entry; otherwise it is queued for phase 2. -/
def phase1Step (bh gh : SheetHeaders) (st : Phase1Out) (bookRow : Record) : Phase1Out :=
  let key := matchKeyOf bh.gstinH bh.billNoH bookRow
  match assocFind st.map key with
  | some gstrRow =>
      { map := assocErase st.map key,
        matched := st.matched ++ [mkMatchedRecord bh gh bookRow gstrRow],
        onlyInBooksInitial := st.onlyInBooksInitial }
  | none =>
      { st with onlyInBooksInitial := st.onlyInBooksInitial ++ [bookRow] }

/-- Lowercased trimmed legal name, or none when the header is unresolved
(source lines 296 and 305). -/
def legalNameOf (lH : Option String) (r : Record) : Option String :=
  match lH with
  | none => none
  | some lh => if lh = "" then none else some (lowerStr (trimStr (fieldToString r lh)))

/-- Phase-2 candidate test (source lines 300-313): identical
whitespace-stripped uppercased GSTINs, compatible legal names (absent on
either side or equal), and taxable values within the tolerance of 2. -/
def fuzzyMatchesB (bh gh : SheetHeaders) (bookRow gstrRow : Record) : Bool :=
  let bookGstin := upperStr (stripWs (fieldToString bookRow bh.gstinH))
  let gstrGstin := upperStr (stripWs (fieldToString gstrRow gh.gstinH))
  if bookGstin ≠ gstrGstin then false
  else
    let bookLN := legalNameOf bh.legalNameH bookRow
    let gstrLN := legalNameOf gh.legalNameH gstrRow
    if ¬ (bookLN = none ∨ gstrLN = none ∨ bookLN = gstrLN) then false
    else decide (|getColumnData bookRow bh.taxableH - getColumnData gstrRow gh.taxableH| ≤ 2)

/-- First-fit search with removal (source lines 299-314 and 320): return the
first pool element satisfying the predicate together with the pool with that
element spliced out. -/
def extractFirst (p : Record → Bool) : List Record → Option (Record × List Record)
  | [] => none
  | r :: rest =>
      if p r then some (r, rest)
      else
        match extractFirst p rest with
        | some (m, rest1) => some (m, r :: rest1)
        | none => none

/-- The record pushed for a tolerant match (source line 319): books row,
namespaced GSTR-2B fields, then the status. -/
def mkFuzzyRecord (bookRow gstrRow : Record) : Record :=
  spreadInto bookRow (renameGstrFields gstrRow ++ [("Recon Status", CellVal.str "Partially Matched")])

/-- State of the tolerant phase: the remaining GSTR-2B pool, the partially
matched output, and the only-in-books residual. -/
structure Phase2Out where
  pool : List Record
  fuzzyMatched : List Record
  onlyInBooks : List Record

/-- One iteration of the phase-2 forEach (source lines 294-324). -/
def phase2Step (bh gh : SheetHeaders) (st : Phase2Out) (bookRow : Record) : Phase2Out :=
  match extractFirst (fuzzyMatchesB bh gh bookRow) st.pool with
  | some (gstrRow, rest) =>
      { pool := rest,
        fuzzyMatched := st.fuzzyMatched ++ [mkFuzzyRecord bookRow gstrRow],
        onlyInBooks := st.onlyInBooks }
  | none =>
      { st with
        onlyInBooks := st.onlyInBooks ++ [assocSet bookRow "Recon Status" (CellVal.str "Only in Books")] }

/-- Removal of the four detailed difference columns from the final combined
report (source lines 349-362). -/
def removeDiffColumns (r : Record) : Record :=
  ["Diff Integrated Tax(₹)", "Diff Central Tax(₹)", "Diff State/UT Tax(₹)", "Diff Cess(₹)"].foldl
    assocErase r

/-- Result of one reconciliation run (source lines 365-381, record sets
only; the summary counts are the lengths of these lists). -/
structure ReconResult where
  matchedRecords : List Record
  fuzzyMatchedRecords : List Record
  finalOnlyInBooks : List Record
  finalOnlyInGstr2b : List Record
  invoicesInBookNotInGstr2b : List Record
  creditNotesInBookNotInGstr2b : List Record
  invoicesInGstr2bNotInBook : List Record
  creditNotesInGstr2bNotInBook : List Record
  finalReport : List Record

/-- The reconciliation core of reconcileData (source lines 228-381), taking
the two already consolidated sheets: exact-match phase over the match-key
map, tolerant phase over the remaining pool, then the report split. -/
def reconcileCore (bh gh : SheetHeaders) (booksSheet gstr2bSheet : List Record)
    (t : Gstr2bType) : ReconResult :=
  let gstr2bMap := buildGstr2bMap gh gstr2bSheet
  let p1 := booksSheet.foldl (phase1Step bh gh) ⟨gstr2bMap, [], []⟩
  let pool0 := p1.map.map Prod.snd
  let p2 := p1.onlyInBooksInitial.foldl (phase2Step bh gh) ⟨pool0, [], []⟩
  let finalOnlyInGstr2b :=
    p2.pool.map (fun row => assocSet row "Recon Status" (CellVal.str "Only in GSTR-2B"))
  let invBooks := p2.onlyInBooks.filter (fun r => decide (0 ≤ getColumnData r bh.taxableH))
  let cnBooks := p2.onlyInBooks.filter (fun r => decide (getColumnData r bh.taxableH < 0))
  let invG :=
    match t with
    | Gstr2bType.B2B => finalOnlyInGstr2b
    | Gstr2bType.CDNR => []
    | Gstr2bType.Other =>
        finalOnlyInGstr2b.filter (fun r => decide (0 ≤ getColumnData r gh.taxableH))
  let cnG :=
    match t with
    | Gstr2bType.B2B => []
    | Gstr2bType.CDNR => finalOnlyInGstr2b
    | Gstr2bType.Other =>
        finalOnlyInGstr2b.filter (fun r => decide (getColumnData r gh.taxableH < 0))
  { matchedRecords := p1.matched,
    fuzzyMatchedRecords := p2.fuzzyMatched,
    finalOnlyInBooks := p2.onlyInBooks,
    finalOnlyInGstr2b := finalOnlyInGstr2b,
    invoicesInBookNotInGstr2b := invBooks,
    creditNotesInBookNotInGstr2b := cnBooks,
    invoicesInGstr2bNotInBook := invG,
    creditNotesInGstr2bNotInBook := cnG,
    finalReport :=
      (p1.matched ++ p2.fuzzyMatched ++ p2.onlyInBooks ++ finalOnlyInGstr2b).map removeDiffColumns }

/-- Numeric header bundle of one sheet, in the order of source lines 222 and
225. -/
def numericHeadersOf (h : SheetHeaders) : List (Option String) :=
  [h.taxableH, h.igstH, h.cgstH, h.sgstH, h.cessH]

/-- reconcileData after parsing and header resolution (source lines 219-381):
consolidate both sheets, then run the matcher and report split. -/
def reconcilePipeline (bh gh : SheetHeaders) (rawBooks rawGstr : List Record)
    (t : Gstr2bType) : ReconResult :=
  let booksSheet := consolidateInvoices rawBooks bh.gstinH bh.billNoH bh.legalNameH (numericHeadersOf bh)
  let gstr2bSheet := consolidateInvoices rawGstr gh.gstinH gh.billNoH gh.legalNameH (numericHeadersOf gh)
  reconcileCore bh gh booksSheet gstr2bSheet t

/-- GSTIN column aliases (source lines 6-7). -/
def gstinAliases : List String :=
  ["GSTIN", "GSTIN/UIN of Recipient", "GSTIN of Supplier", "Supplier GSTIN"]

/-- Invoice-number column aliases (source line 8). -/
def billNoAliases : List String :=
  ["Invoice Number", "Bill No", "Bill Number", "Document Number", "Invoice No.", "Inv No"]

/-- Header-cell stringification of the scan (source line 126): String(h || '')
followed by trim, so null, the empty string and the number 0 all become the
empty string. -/
def headerCellString (v : CellVal) : String :=
  if truthy (some v) then trimStr (cellToString v) else ""

/-- A raw row turned into its candidate header strings. -/
def rowHeaderStrings (row : List CellVal) : List String :=
  row.map headerCellString

/-- One alias set matched against a stringified row (source line 131):
some cell equals some alias case-insensitively. -/
def rowHasAlias (aliases : List String) (hs : List String) : Bool :=
  hs.any (fun cell => aliases.any (fun a => lowerStr a == lowerStr cell))

/-- Header-row candidate test (source lines 129-135): both required alias
sets must match, which is exactly matchCount reaching the number of required
sets.  An empty row trivially fails, subsuming the length-0 continue. -/
def rowQualifies (hs : List String) : Bool :=
  rowHasAlias gstinAliases hs && rowHasAlias billNoAliases hs

/-- The scan loop of source lines 125-140: try the first min(fuel, length)
rows, returning the first qualifying index and its header strings. -/
def scanHeaderRow : ℕ → List (List CellVal) → Option (ℕ × List String)
  | _, [] => none
  | 0, _ => none
  | Nat.succ fuel, row :: rest =>
      let hs := rowHeaderStrings row
      if rowQualifies hs then some (0, hs)
      else
        match scanHeaderRow fuel rest with
        | some (i, h) => some (i + 1, h)
        | none => none

/-- One data row zipped under the found headers (source lines 150-158):
only non-empty header names with an in-range index contribute a field. -/
def rowToRecord (headers : List String) (rowArray : List CellVal) : Record :=
  headers.enum.foldl
    (fun r p =>
      if p.2 ≠ "" ∧ p.1 < rowArray.length then
        assocSet r p.2 (rowArray.getD p.1 CellVal.null)
      else r)
    []

/-- Row filter of source line 159: keep a record when some value is neither
null nor the empty string. -/
def nonEmptyRecord (r : Record) : Bool :=
  r.any (fun kv => !(kv.2 == CellVal.null) && !(kv.2 == CellVal.str ""))

/-- Error kinds of the sheet-level parse path of parseExcelFile, in the
order in which the source can raise them. -/
inductive ParseError where
  | emptySheet
  | headerNotFound
  | emptyDataset
deriving DecidableEq

/-- The sheet-level part of parseExcelFile (source lines 114-166), from the
array-of-arrays sheet data onward: the zero-row check, the header scan over
the first 15 rows, materialization of the rows below the header, and the
no-data check. -/
def parseSheet (sheetData : List (List CellVal)) : Except ParseError (List Record) :=
  if sheetData.length < 1 then Except.error ParseError.emptySheet
  else
    match scanHeaderRow 15 sheetData with
    | none => Except.error ParseError.headerNotFound
    | some (i, headers) =>
        let dataRows := sheetData.drop (i + 1)
        let jsonData := (dataRows.map (rowToRecord headers)).filter nonEmptyRecord
        if jsonData.length = 0 then Except.error ParseError.emptyDataset
        else Except.ok jsonData

/-- Consolidation keys of the valid (non-skipped) records, in input order,
with multiplicity. -/
def validConsKeys (gH bH : String) (l : List Record) : List String :=
  (l.filter (validKeyB gH bH)).map (consKeyOf gH bH)

/-- Sum of a coerced numeric column over all valid records of one
consolidation key. -/
def keySum (gH bH : String) (l : List Record) (k h : String) : ℚ :=
  ((l.filter (fun r => validKeyB gH bH r && (consKeyOf gH bH r == k))).map
    (fun r => getColumnData r (some h))).sum

/-- First-appearance deduplication of a key list: keep each key at the
position of its first occurrence. -/
def dedupFirst : List String → List String
  | [] => []
  | k :: rest => k :: (dedupFirst rest).filter (fun x => x != k)


/-- Side conditions on the resolved headers, true for every configuration the
source can build (findHeader resolves distinct fields from disjoint alias
sets to distinct literal headers): the numeric headers are distinct from each
other and from the GSTIN, invoice-number and legal-name headers. -/
structure HeaderSep (gH bH : String) (lH : Option String) (numHs : List String) : Prop where
  nodup : numHs.Nodup
  g_not : gH ∉ numHs
  b_not : bH ∉ numHs
  l_not : ∀ s, lH = some s → s ∉ numHs ∧ s ≠ gH ∧ s ≠ bH

/-- Invariant of the consolidation fold relating the map to the processed
prefix of the input: the keys are the first-appearance deduplication of the
valid consolidation keys, every stored record originates from the first
record of its key with the key fields untouched, and every resolved numeric
field holds the running sum of its column over the key group. -/
structure ConsInv (gH bH : String) (numHs : List String)
    (acc : List (String × Record)) (processed : List Record) : Prop where
  keys_eq : assocKeys acc = dedupFirst (validConsKeys gH bH processed)
  find_src : ∀ k r1, assocFind acc k = some r1 →
    ∃ r0, r0 ∈ processed ∧ validKeyB gH bH r0 = true ∧ consKeyOf gH bH r0 = k ∧
      assocFind r1 gH = assocFind r0 gH ∧ assocFind r1 bH = assocFind r0 bH
  find_sum : ∀ k r1, assocFind acc k = some r1 → ∀ h, h ∈ numHs →
    assocFind r1 h = some (CellVal.num (keySum gH bH processed k h))



/-! ### Concrete inputs used by the closed instance theorems -/

/-- Header configuration with only GSTIN, invoice number and taxable value
resolved, as produced for a minimal sheet. -/
def whGH : SheetHeaders :=
  ⟨"GSTIN", "Invoice Number", none, some "Taxable Value", none, none, none, none⟩

/-- Books row with taxable value 1000. -/
def wBook1 : Record :=
  [("GSTIN", CellVal.str "27AA"), ("Invoice Number", CellVal.str "INV001"),
   ("Taxable Value", CellVal.num 1000)]

/-- Books row whose invoice number differs from wGstr1 only by a dash. -/
def wBook2 : Record :=
  [("GSTIN", CellVal.str "27AA"), ("Invoice Number", CellVal.str "INV-001"),
   ("Taxable Value", CellVal.num 1000)]

/-- GSTR-2B row with taxable value 1001. -/
def wGstr1 : Record :=
  [("GSTIN", CellVal.str "27AA"), ("Invoice Number", CellVal.str "INV001"),
   ("Taxable Value", CellVal.num 1001)]

/-- First line item of a two-line invoice, taxable 600. -/
def wB600 : Record :=
  [("GSTIN", CellVal.str "27AA"), ("Invoice Number", CellVal.str "INV001"),
   ("Taxable Value", CellVal.num 600)]

/-- Second line item of the same invoice, taxable 400. -/
def wB400 : Record :=
  [("GSTIN", CellVal.str "27AA"), ("Invoice Number", CellVal.str "INV001"),
   ("Taxable Value", CellVal.num 400)]

/-- GSTR-2B row whose match key ABC collides with c1GstrB after whitespace
stripping although the consolidation keys AB-C and A-BC differ. -/
def c1GstrA : Record :=
  [("GSTIN", CellVal.str "AB"), ("Invoice Number", CellVal.str "C")]

/-- Companion row of c1GstrA with the same match key ABC. -/
def c1GstrB : Record :=
  [("GSTIN", CellVal.str "A"), ("Invoice Number", CellVal.str "BC")]


/-! ### Association-list lemmas -/

theorem assocFind_assocSet_self {α : Type} (m : List (String × α)) (k : String) (v : α) :
    assocFind (assocSet m k v) k = some v := by
  induction m with
  | nil => simp [assocSet, assocFind]
  | cons p rest ih =>
      by_cases h : p.1 = k
      · simp [assocSet, assocFind, h]
      · simp [assocSet, assocFind, h, ih]

theorem assocFind_assocSet_ne {α : Type} (m : List (String × α)) {k1 k : String} (v : α)
    (h : k1 ≠ k) : assocFind (assocSet m k1 v) k = assocFind m k := by
  induction m with
  | nil => simp [assocSet, assocFind, h]
  | cons p rest ih =>
      by_cases hp : p.1 = k1
      · simp [assocSet, assocFind, hp, h]
      · simp only [assocSet, hp, if_neg hp, assocFind]
        by_cases hk : p.1 = k
        · simp [hk]
        · simp [hk, ih]

theorem assocFind_eq_none_iff {α : Type} (m : List (String × α)) (k : String) :
    assocFind m k = none ↔ k ∉ assocKeys m := by
  induction m with
  | nil => simp [assocFind, assocKeys]
  | cons p rest ih =>
      by_cases h : p.1 = k
      · simp [assocFind, assocKeys, h]
      · simp [assocFind, assocKeys, h, ih, Ne.symm h]

theorem assocSet_of_find_none {α : Type} {m : List (String × α)} {k : String}
    (h : assocFind m k = none) (v : α) : assocSet m k v = m ++ [(k, v)] := by
  induction m with
  | nil => simp [assocSet]
  | cons p rest ih =>
      by_cases hp : p.1 = k
      · simp [assocFind, hp] at h
      · simp only [assocFind, hp, if_neg hp] at h
        simp [assocSet, hp, ih h]

theorem assocKeys_assocSet_of_find_some {α : Type} {m : List (String × α)} {k : String} {w : α}
    (h : assocFind m k = some w) (v : α) : assocKeys (assocSet m k v) = assocKeys m := by
  induction m with
  | nil => simp [assocFind] at h
  | cons p rest ih =>
      obtain ⟨k1, v1⟩ := p
      by_cases hp : k1 = k
      · simp [assocSet, assocKeys, hp]
      · simp only [assocFind, if_neg hp] at h
        have hih := ih h
        simp only [assocKeys] at hih
        simp [assocSet, assocKeys, hp, hih]

theorem length_assocErase_of_find_some {α : Type} {m : List (String × α)} {k : String} {v : α}
    (h : assocFind m k = some v) : m.length = (assocErase m k).length + 1 := by
  induction m with
  | nil => simp [assocFind] at h
  | cons p rest ih =>
      by_cases hp : p.1 = k
      · simp [assocErase, hp]
      · simp only [assocFind, hp, if_neg hp] at h
        simp [assocErase, hp, ih h]

theorem assocFind_append_of_some {α : Type} {m1 : List (String × α)} {k : String} {v : α}
    (h : assocFind m1 k = some v) (m2 : List (String × α)) :
    assocFind (m1 ++ m2) k = some v := by
  induction m1 with
  | nil => simp [assocFind] at h
  | cons p rest ih =>
      by_cases hp : p.1 = k
      · simp only [assocFind, hp, if_pos hp] at h ⊢
        simpa using h
      · simp only [assocFind, hp, if_neg hp] at h ⊢
        simp [ih h]

theorem assocFind_append_of_none {α : Type} {m1 : List (String × α)} {k : String}
    (h : assocFind m1 k = none) (m2 : List (String × α)) :
    assocFind (m1 ++ m2) k = assocFind m2 k := by
  induction m1 with
  | nil => simp [assocFind]
  | cons p rest ih =>
      by_cases hp : p.1 = k
      · simp [assocFind, hp] at h
      · simp only [assocFind, hp, if_neg hp] at h ⊢
        simp [ih h]

theorem assocFind_of_mem_nodup {α : Type} {m : List (String × α)} {k : String} {v : α}
    (hnd : (assocKeys m).Nodup) (hm : (k, v) ∈ m) : assocFind m k = some v := by
  induction m with
  | nil => simp at hm
  | cons p rest ih =>
      simp only [assocKeys, List.map_cons, List.nodup_cons] at hnd
      rcases List.mem_cons.mp hm with h | h
      · cases h
        simp [assocFind]
      · have hk : p.1 ≠ k := by
          intro he
          exact hnd.1 (he ▸ (List.mem_map.mpr ⟨(k, v), h, rfl⟩))
        simp only [assocFind, if_neg hk]
        exact ih hnd.2 h

/-! ### Folded-set lemmas for the numeric-header updates -/

theorem assocFind_foldl_assocSet_not_mem {α : Type}
    (F : List (String × α) → String → α) (hs : List String) (k : String) (hk : k ∉ hs) :
    ∀ base : List (String × α),
      assocFind (hs.foldl (fun r h => assocSet r h (F r h)) base) k = assocFind base k := by
  induction hs with
  | nil => intro base; rfl
  | cons h t ih =>
      intro base
      have hne : h ≠ k := fun he => hk (he ▸ List.mem_cons_self h t)
      have hkt : k ∉ t := fun hm => hk (List.mem_cons_of_mem h hm)
      simp only [List.foldl_cons]
      rw [ih hkt, assocFind_assocSet_ne _ _ hne]

theorem assocFind_initNumeric_not_mem (record : Record) {numHs : List String} {k : String}
    (hk : k ∉ numHs) (base : Record) :
    assocFind (numHs.foldl (fun r h => assocSet r h (CellVal.num (getColumnData record (some h)))) base) k
      = assocFind base k :=
  assocFind_foldl_assocSet_not_mem (fun _ h => CellVal.num (getColumnData record (some h))) numHs k hk base

theorem assocFind_addNumeric_not_mem (record : Record) {numHs : List String} {k : String}
    (hk : k ∉ numHs) (base : Record) :
    assocFind (addNumeric record numHs base) k = assocFind base k :=
  assocFind_foldl_assocSet_not_mem
    (fun r h => CellVal.num (jsOrZero (assocFind r h) + getColumnData record (some h))) numHs k hk base

theorem assocFind_initNumeric_mem (record : Record) {numHs : List String} {k : String}
    (hnd : numHs.Nodup) (hk : k ∈ numHs) :
    ∀ base : Record,
      assocFind (numHs.foldl (fun r h => assocSet r h (CellVal.num (getColumnData record (some h)))) base) k
        = some (CellVal.num (getColumnData record (some k))) := by
  induction numHs with
  | nil => simp at hk
  | cons h t ih =>
      intro base
      simp only [List.nodup_cons] at hnd
      simp only [List.foldl_cons]
      by_cases he : k = h
      · subst he
        rw [assocFind_foldl_assocSet_not_mem _ t k hnd.1, assocFind_assocSet_self]
      · have hkt : k ∈ t := by
          rcases List.mem_cons.mp hk with h1 | h1
          · exact absurd h1 he
          · exact h1
        exact ih hnd.2 hkt _

theorem assocFind_addNumeric_mem (record : Record) {numHs : List String} {k : String}
    (hnd : numHs.Nodup) (hk : k ∈ numHs) :
    ∀ base : Record,
      assocFind (addNumeric record numHs base) k
        = some (CellVal.num (jsOrZero (assocFind base k) + getColumnData record (some k))) := by
  induction numHs with
  | nil => simp at hk
  | cons h t ih =>
      intro base
      simp only [List.nodup_cons] at hnd
      simp only [addNumeric, List.foldl_cons]
      by_cases he : k = h
      · subst he
        rw [assocFind_foldl_assocSet_not_mem _ t k hnd.1, assocFind_assocSet_self]
      · have hkt : k ∈ t := by
          rcases List.mem_cons.mp hk with h1 | h1
          · exact absurd h1 he
          · exact h1
        have := ih hnd.2 hkt (assocSet base h (CellVal.num (jsOrZero (assocFind base h) + getColumnData record (some h))))
        rw [addNumeric] at this
        rw [this, assocFind_assocSet_ne _ _ (fun hx => he hx.symm)]

theorem assocFind_backfillLegal_ne (record : Record) (lH : Option String) (updated : Record)
    {k : String} (hk : ∀ s, lH = some s → s ≠ k) :
    assocFind (backfillLegal record lH updated) k = assocFind updated k := by
  cases lH with
  | none => rfl
  | some lh =>
      have hne : lh ≠ k := hk lh rfl
      simp only [backfillLegal]
      by_cases hc : lh ≠ "" ∧ truthy (assocFind updated lh) = false ∧ truthy (assocFind record lh) = true
      · simp only [if_pos hc]
        cases hv : assocFind record lh with
        | none => rfl
        | some v => exact assocFind_assocSet_ne _ _ hne
      · simp [if_neg hc]

/-! ### Spread lemmas -/

theorem spreadInto_append (base : Record) (l1 l2 : List (String × CellVal)) :
    spreadInto base (l1 ++ l2) = spreadInto (spreadInto base l1) l2 :=
  List.foldl_append _ _ _ _

theorem assocFind_spreadInto_not_mem {fields : List (String × CellVal)} {k : String}
    (h : ∀ e ∈ fields, e.1 ≠ k) :
    ∀ base : Record, assocFind (spreadInto base fields) k = assocFind base k := by
  induction fields with
  | nil => intro base; rfl
  | cons e t ih =>
      intro base
      simp only [spreadInto, List.foldl_cons]
      have h1 : ∀ x ∈ t, x.1 ≠ k := fun x hx => h x (List.mem_cons_of_mem e hx)
      have := ih h1 (assocSet base e.1 e.2)
      rw [spreadInto] at this
      rw [this, assocFind_assocSet_ne _ _ (h e (List.mem_cons_self e t))]

/-! ### String lemmas -/

theorem data_append (a b : String) : (a ++ b).data = a.data ++ b.data := rfl

theorem eq_empty_of_data_eq_nil {s : String} (h : s.data = []) : s = "" := by
  cases s with
  | mk l =>
      simp only [String.data] at h
      cases h
      rfl

theorem data_eq_nil_of_eq_empty {s : String} (h : s = "") : s.data = [] := by
  subst h
  rfl

theorem upperStr_eq_empty_iff (s : String) : upperStr s = "" ↔ s = "" := by
  constructor
  · intro h
    have hd := data_eq_nil_of_eq_empty h
    simp only [upperStr, List.map_eq_nil] at hd
    exact eq_empty_of_data_eq_nil hd
  · intro h; rw [h]; rfl

theorem stripWs_eq_empty_iff (s : String) :
    stripWs s = "" ↔ ∀ c ∈ s.data, c.isWhitespace := by
  constructor
  · intro h c hc
    have hd := data_eq_nil_of_eq_empty h
    simp only [stripWs] at hd
    have := List.filter_eq_nil.mp hd c hc
    simpa using this
  · intro h
    apply eq_empty_of_data_eq_nil
    simp only [stripWs]
    exact List.filter_eq_nil.mpr (fun c hc => by simpa using h c hc)

theorem trimStr_eq_empty_of_all_ws {s : String} (h : ∀ c ∈ s.data, c.isWhitespace) :
    trimStr s = "" := by
  apply eq_empty_of_data_eq_nil
  simp only [trimStr]
  have h1 : s.data.dropWhile Char.isWhitespace = [] := List.dropWhile_eq_nil_iff.mpr h
  rw [h1]
  rfl

theorem stripWs_ne_empty_of_trim_ne {s : String} (h : trimStr s ≠ "") : stripWs s ≠ "" := by
  intro hc
  exact h (trimStr_eq_empty_of_all_ws ((stripWs_eq_empty_iff s).mp hc))

theorem stripWs_append (a b : String) : stripWs (a ++ b) = stripWs a ++ stripWs b := by
  simp only [stripWs, data_append, List.filter_append]
  rfl

theorem head_gstr_prefixed (s : String) : ("GSTR2B_" ++ s).data.head? = some 'G' := by
  rw [data_append]
  rfl

theorem gstr_prefixed_ne {t : String} (ht : t.data.head? ≠ some 'G') (s : String) :
    ("GSTR2B_" ++ s) ≠ t := fun he => ht (he ▸ head_gstr_prefixed s)

/-! ### extractFirst lemmas -/

theorem extractFirst_eq_some_spec {p : Record → Bool} :
    ∀ {l : List Record} {m : Record} {rest : List Record},
      extractFirst p l = some (m, rest) →
      ∃ l1 l2, l = l1 ++ m :: l2 ∧ rest = l1 ++ l2 ∧ p m = true ∧ ∀ x ∈ l1, p x = false := by
  intro l
  induction l with
  | nil => intro m rest h; simp [extractFirst] at h
  | cons r t ih =>
      intro m rest h
      by_cases hp : p r
      · simp only [extractFirst, if_pos hp, Option.some.injEq, Prod.mk.injEq] at h
        obtain ⟨hm, hr⟩ := h
        subst hm
        subst hr
        exact ⟨[], t, rfl, rfl, hp, by simp⟩
      · simp only [extractFirst, if_neg hp] at h
        cases he : extractFirst p t with
        | none => rw [he] at h; simp at h
        | some pr =>
            rw [he] at h
            obtain ⟨m1, rest1⟩ := pr
            simp only [Option.some.injEq, Prod.mk.injEq] at h
            obtain ⟨l1, l2, ht, hr, hm, hall⟩ := ih he
            refine ⟨r :: l1, l2, ?_, ?_, ?_, ?_⟩
            · simp [ht, h.1]
            · simp [← h.2, hr]
            · exact h.1 ▸ hm
            · intro x hx
              rcases List.mem_cons.mp hx with h1 | h1
              · simpa [h1] using hp
              · exact hall x h1

theorem extractFirst_eq_none_iff {p : Record → Bool} {l : List Record} :
    extractFirst p l = none ↔ ∀ x ∈ l, p x = false := by
  induction l with
  | nil => simp [extractFirst]
  | cons r t ih =>
      by_cases hp : p r
      · simp [extractFirst, hp]
      · simp only [extractFirst, if_neg hp]
        cases he : extractFirst p t with
        | none =>
            simp only [he]
            constructor
            · intro _ x hx
              rcases List.mem_cons.mp hx with h1 | h1
              · simpa [h1] using hp
              · exact ih.mp he x h1
            · intro _; trivial
        | some pr =>
            simp only [he]
            constructor
            · intro h; simp at h
            · intro h
              have : extractFirst p t = none := ih.mpr (fun x hx => h x (List.mem_cons_of_mem r hx))
              rw [he] at this; simp at this

/-! ### Exact-match map lemmas -/

theorem buildFold_eq (gh : SheetHeaders) :
    ∀ (rows : List Record) (acc : List (String × Record)),
      (∀ r ∈ rows, matchKeyOf gh.gstinH gh.billNoH r ≠ "" ∧
        matchKeyOf gh.gstinH gh.billNoH r ∉ assocKeys acc) →
      (rows.map (matchKeyOf gh.gstinH gh.billNoH)).Nodup →
      rows.foldl
          (fun m row =>
            let key := matchKeyOf gh.gstinH gh.billNoH row
            if key = "" then m else assocSet m key row) acc
        = acc ++ rows.map (fun r => (matchKeyOf gh.gstinH gh.billNoH r, r)) := by
  intro rows
  induction rows with
  | nil => intro acc _ _; simp
  | cons r t ih =>
      intro acc hmem hnd
      have hr := hmem r (List.mem_cons_self r t)
      have hfind : assocFind acc (matchKeyOf gh.gstinH gh.billNoH r) = none :=
        (assocFind_eq_none_iff _ _).mpr hr.2
      simp only [List.foldl_cons, if_neg hr.1]
      rw [assocSet_of_find_none hfind]
      simp only [List.map_cons, List.nodup_cons] at hnd
      have hkeys : assocKeys (acc ++ [(matchKeyOf gh.gstinH gh.billNoH r, r)])
          = assocKeys acc ++ [matchKeyOf gh.gstinH gh.billNoH r] := by
        simp [assocKeys]
      rw [ih _ ?_ hnd.2]
      · simp
      · intro x hx
        refine ⟨(hmem x (List.mem_cons_of_mem r hx)).1, ?_⟩
        rw [hkeys]
        intro hc
        rcases List.mem_append.mp hc with hc | hc
        · exact (hmem x (List.mem_cons_of_mem r hx)).2 hc
        · have : matchKeyOf gh.gstinH gh.billNoH x = matchKeyOf gh.gstinH gh.billNoH r := by
            simpa using hc
          exact hnd.1 (this ▸ List.mem_map.mpr ⟨x, hx, rfl⟩)

theorem buildGstr2bMap_eq (gh : SheetHeaders) (rows : List Record)
    (hne : ∀ r ∈ rows, matchKeyOf gh.gstinH gh.billNoH r ≠ "")
    (hnd : (rows.map (matchKeyOf gh.gstinH gh.billNoH)).Nodup) :
    buildGstr2bMap gh rows = rows.map (fun r => (matchKeyOf gh.gstinH gh.billNoH r, r)) := by
  have := buildFold_eq gh rows [] (fun r hr => ⟨hne r hr, by simp [assocKeys]⟩) hnd
  simpa [buildGstr2bMap] using this

theorem length_buildGstr2bMap (gh : SheetHeaders) (rows : List Record)
    (hne : ∀ r ∈ rows, matchKeyOf gh.gstinH gh.billNoH r ≠ "")
    (hnd : (rows.map (matchKeyOf gh.gstinH gh.billNoH)).Nodup) :
    (buildGstr2bMap gh rows).length = rows.length := by
  rw [buildGstr2bMap_eq gh rows hne hnd]
  simp

/-! ### Phase-1 fold lemmas -/

theorem phase1Step_eq_some (bh gh : SheetHeaders) (st : Phase1Out) (b : Record) {g : Record}
    (hfind : assocFind st.map (matchKeyOf bh.gstinH bh.billNoH b) = some g) :
    phase1Step bh gh st b =
      { map := assocErase st.map (matchKeyOf bh.gstinH bh.billNoH b),
        matched := st.matched ++ [mkMatchedRecord bh gh b g],
        onlyInBooksInitial := st.onlyInBooksInitial } := by
  simp [phase1Step, hfind]

theorem phase1Step_eq_none (bh gh : SheetHeaders) (st : Phase1Out) (b : Record)
    (hfind : assocFind st.map (matchKeyOf bh.gstinH bh.billNoH b) = none) :
    phase1Step bh gh st b = { st with onlyInBooksInitial := st.onlyInBooksInitial ++ [b] } := by
  simp [phase1Step, hfind]

theorem phase1_fold_counts (bh gh : SheetHeaders) :
    ∀ (books : List Record) (st : Phase1Out),
      ((books.foldl (phase1Step bh gh) st).matched.length
          + (books.foldl (phase1Step bh gh) st).map.length
        = st.matched.length + st.map.length)
      ∧ ((books.foldl (phase1Step bh gh) st).matched.length
          + (books.foldl (phase1Step bh gh) st).onlyInBooksInitial.length
        = st.matched.length + st.onlyInBooksInitial.length + books.length) := by
  intro books
  induction books with
  | nil => intro st; simp
  | cons b t ih =>
      intro st
      simp only [List.foldl_cons, List.length_cons]
      cases hfind : assocFind st.map (matchKeyOf bh.gstinH bh.billNoH b) with
      | some g =>
          have hlen := length_assocErase_of_find_some hfind
          rw [phase1Step_eq_some bh gh st b hfind]
          constructor
          · rw [(ih _).1]
            simp only [List.length_append, List.length_cons, List.length_nil]
            omega
          · rw [(ih _).2]
            simp only [List.length_append, List.length_cons, List.length_nil]
            omega
      | none =>
          rw [phase1Step_eq_none bh gh st b hfind]
          constructor
          · rw [(ih _).1]
          · rw [(ih _).2]
            simp only [List.length_append, List.length_cons, List.length_nil]
            omega

theorem phase1_matched_shape (bh gh : SheetHeaders) :
    ∀ (books : List Record) (st : Phase1Out) (m : Record),
      m ∈ (books.foldl (phase1Step bh gh) st).matched →
      m ∈ st.matched ∨ ∃ bk g, m = mkMatchedRecord bh gh bk g := by
  intro books
  induction books with
  | nil => intro st m hm; exact Or.inl hm
  | cons b t ih =>
      intro st m hm
      simp only [List.foldl_cons] at hm
      rcases ih _ m hm with h | h
      · cases hfind : assocFind st.map (matchKeyOf bh.gstinH bh.billNoH b) with
        | some g =>
            rw [phase1Step_eq_some bh gh st b hfind] at h
            simp only [List.mem_append, List.mem_singleton] at h
            rcases h with h | h
            · exact Or.inl h
            · exact Or.inr ⟨b, g, h⟩
        | none =>
            rw [phase1Step_eq_none bh gh st b hfind] at h
            exact Or.inl h
      · exact Or.inr h

/-! ### Phase-2 fold lemmas -/

theorem length_extractFirst_some {p : Record → Bool} {l : List Record} {m : Record}
    {rest : List Record} (h : extractFirst p l = some (m, rest)) :
    l.length = rest.length + 1 := by
  obtain ⟨l1, l2, hl, hr, _, _⟩ := extractFirst_eq_some_spec h
  subst hl
  subst hr
  simp
  omega

theorem phase2Step_eq_some (bh gh : SheetHeaders) (st : Phase2Out) (b : Record)
    {g : Record} {rest : List Record}
    (hfind : extractFirst (fuzzyMatchesB bh gh b) st.pool = some (g, rest)) :
    phase2Step bh gh st b =
      { pool := rest,
        fuzzyMatched := st.fuzzyMatched ++ [mkFuzzyRecord b g],
        onlyInBooks := st.onlyInBooks } := by
  simp [phase2Step, hfind]

theorem phase2Step_eq_none (bh gh : SheetHeaders) (st : Phase2Out) (b : Record)
    (hfind : extractFirst (fuzzyMatchesB bh gh b) st.pool = none) :
    phase2Step bh gh st b =
      { st with
        onlyInBooks := st.onlyInBooks ++ [assocSet b "Recon Status" (CellVal.str "Only in Books")] } := by
  simp [phase2Step, hfind]

theorem phase2_fold_counts (bh gh : SheetHeaders) :
    ∀ (books : List Record) (st : Phase2Out),
      ((books.foldl (phase2Step bh gh) st).fuzzyMatched.length
          + (books.foldl (phase2Step bh gh) st).pool.length
        = st.fuzzyMatched.length + st.pool.length)
      ∧ ((books.foldl (phase2Step bh gh) st).fuzzyMatched.length
          + (books.foldl (phase2Step bh gh) st).onlyInBooks.length
        = st.fuzzyMatched.length + st.onlyInBooks.length + books.length) := by
  intro books
  induction books with
  | nil => intro st; simp
  | cons b t ih =>
      intro st
      simp only [List.foldl_cons, List.length_cons]
      cases hfind : extractFirst (fuzzyMatchesB bh gh b) st.pool with
      | some pr =>
          obtain ⟨g, rest⟩ := pr
          have hlen := length_extractFirst_some hfind
          rw [phase2Step_eq_some bh gh st b hfind]
          constructor
          · rw [(ih _).1]
            simp only [List.length_append, List.length_cons, List.length_nil]
            omega
          · rw [(ih _).2]
            simp only [List.length_append, List.length_cons, List.length_nil]
            omega
      | none =>
          rw [phase2Step_eq_none bh gh st b hfind]
          constructor
          · rw [(ih _).1]
          · rw [(ih _).2]
            simp only [List.length_append, List.length_cons, List.length_nil]
            omega

/-! ### Projection equations of the reconciliation core -/

theorem reconcileCore_matched (bh gh : SheetHeaders) (books gstr : List Record) (t : Gstr2bType) :
    (reconcileCore bh gh books gstr t).matchedRecords
      = (books.foldl (phase1Step bh gh) ⟨buildGstr2bMap gh gstr, [], []⟩).matched := rfl

theorem reconcileCore_fuzzy (bh gh : SheetHeaders) (books gstr : List Record) (t : Gstr2bType) :
    (reconcileCore bh gh books gstr t).fuzzyMatchedRecords
      = ((books.foldl (phase1Step bh gh) ⟨buildGstr2bMap gh gstr, [], []⟩).onlyInBooksInitial.foldl
          (phase2Step bh gh)
          ⟨(books.foldl (phase1Step bh gh) ⟨buildGstr2bMap gh gstr, [], []⟩).map.map Prod.snd, [], []⟩).fuzzyMatched := rfl

theorem reconcileCore_onlyInBooks (bh gh : SheetHeaders) (books gstr : List Record) (t : Gstr2bType) :
    (reconcileCore bh gh books gstr t).finalOnlyInBooks
      = ((books.foldl (phase1Step bh gh) ⟨buildGstr2bMap gh gstr, [], []⟩).onlyInBooksInitial.foldl
          (phase2Step bh gh)
          ⟨(books.foldl (phase1Step bh gh) ⟨buildGstr2bMap gh gstr, [], []⟩).map.map Prod.snd, [], []⟩).onlyInBooks := rfl

theorem reconcileCore_onlyInGstr2b (bh gh : SheetHeaders) (books gstr : List Record) (t : Gstr2bType) :
    (reconcileCore bh gh books gstr t).finalOnlyInGstr2b
      = ((books.foldl (phase1Step bh gh) ⟨buildGstr2bMap gh gstr, [], []⟩).onlyInBooksInitial.foldl
          (phase2Step bh gh)
          ⟨(books.foldl (phase1Step bh gh) ⟨buildGstr2bMap gh gstr, [], []⟩).map.map Prod.snd, [], []⟩).pool.map
          (fun row => assocSet row "Recon Status" (CellVal.str "Only in GSTR-2B")) := rfl

/-! ### Spec-side descriptions of the consolidation output -/

theorem mem_dedupFirst (x : String) : ∀ l : List String, x ∈ dedupFirst l ↔ x ∈ l := by
  intro l
  induction l with
  | nil => simp [dedupFirst]
  | cons a t ih =>
      simp only [dedupFirst, List.mem_cons, List.mem_filter, bne_iff_ne]
      constructor
      · rintro (h | ⟨h1, _⟩)
        · exact Or.inl h
        · exact Or.inr (ih.mp h1)
      · rintro (h | h)
        · exact Or.inl h
        · by_cases hx : x = a
          · exact Or.inl hx
          · exact Or.inr ⟨ih.mpr h, hx⟩

theorem nodup_dedupFirst : ∀ l : List String, (dedupFirst l).Nodup := by
  intro l
  induction l with
  | nil => simp [dedupFirst]
  | cons a t ih =>
      simp only [dedupFirst, List.nodup_cons]
      refine ⟨?_, ih.filter _⟩
      intro hmem
      have := (List.mem_filter.mp hmem).2
      simp at this

theorem dedupFirst_append_not_mem {k : String} :
    ∀ l : List String, k ∉ l → dedupFirst (l ++ [k]) = dedupFirst l ++ [k] := by
  intro l
  induction l with
  | nil => intro _; simp [dedupFirst]
  | cons a t ih =>
      intro h
      have hka : k ≠ a := fun he => h (he ▸ List.mem_cons_self a t)
      have hkt : k ∉ t := fun hm => h (List.mem_cons_of_mem a hm)
      simp only [List.cons_append, dedupFirst, List.append_eq]
      rw [ih hkt, List.filter_append]
      simp [hka]

theorem dedupFirst_append_mem {k : String} :
    ∀ l : List String, k ∈ l → dedupFirst (l ++ [k]) = dedupFirst l := by
  intro l
  induction l with
  | nil => intro h; simp at h
  | cons a t ih =>
      intro h
      simp only [List.cons_append, dedupFirst, List.append_eq]
      by_cases hkt : k ∈ t
      · rw [ih hkt]
      · have hka : k = a := by
          rcases List.mem_cons.mp h with h1 | h1
          · exact h1
          · exact absurd h1 hkt
        rw [dedupFirst_append_not_mem t hkt, List.filter_append]
        simp [hka]

theorem validKeyB_true_iff (gH bH : String) (r : Record) :
    validKeyB gH bH r = true ↔ (consGstin gH r ≠ "" ∧ consGstin bH r ≠ "") := by
  simp [validKeyB]

theorem validKeyB_false_of {gH bH : String} {r : Record}
    (hval : consGstin gH r = "" ∨ consGstin bH r = "") : validKeyB gH bH r = false := by
  simp only [validKeyB, decide_eq_false_iff_not]
  tauto

theorem validKeyB_true_of {gH bH : String} {r : Record}
    (hval : ¬(consGstin gH r = "" ∨ consGstin bH r = "")) : validKeyB gH bH r = true := by
  rw [validKeyB_true_iff]
  tauto

theorem validConsKeys_append_valid {gH bH : String} {r : Record}
    (h : validKeyB gH bH r = true) (l : List Record) :
    validConsKeys gH bH (l ++ [r]) = validConsKeys gH bH l ++ [consKeyOf gH bH r] := by
  simp [validConsKeys, List.filter_append, h]

theorem validConsKeys_append_invalid {gH bH : String} {r : Record}
    (h : validKeyB gH bH r = false) (l : List Record) :
    validConsKeys gH bH (l ++ [r]) = validConsKeys gH bH l := by
  simp [validConsKeys, List.filter_append, h]

theorem keySum_append_match {gH bH : String} {r : Record} {k : String}
    (hv : validKeyB gH bH r = true) (hk : consKeyOf gH bH r = k) (l : List Record) (h : String) :
    keySum gH bH (l ++ [r]) k h = keySum gH bH l k h + getColumnData r (some h) := by
  simp [keySum, List.filter_append, hv, hk]

theorem keySum_append_nomatch {gH bH : String} {r : Record} {k : String}
    (hnm : validKeyB gH bH r = false ∨ consKeyOf gH bH r ≠ k) (l : List Record) (h : String) :
    keySum gH bH (l ++ [r]) k h = keySum gH bH l k h := by
  rcases hnm with h1 | h1
  · simp [keySum, List.filter_append, h1]
  · simp [keySum, List.filter_append, bne_iff_ne, h1]

theorem keySum_eq_zero_of_not_mem {gH bH : String} {l : List Record} {k : String}
    (hk : k ∉ validConsKeys gH bH l) (h : String) : keySum gH bH l k h = 0 := by
  have hnil : (l.filter fun r => validKeyB gH bH r && (consKeyOf gH bH r == k)) = [] := by
    rw [List.filter_eq_nil_iff]
    intro r hr hc
    simp only [Bool.and_eq_true, beq_iff_eq] at hc
    exact hk (List.mem_map.mpr ⟨r, List.mem_filter.mpr ⟨hr, hc.1⟩, hc.2⟩)
  simp [keySum, hnil]

/-! ### Wrappers for the numeric-update lemmas -/

theorem find_initNumeric_not_mem (record : Record) {numHs : List String} {k : String}
    (hk : k ∉ numHs) : assocFind (initNumeric record numHs) k = assocFind record k :=
  assocFind_initNumeric_not_mem record hk record

theorem find_initNumeric_mem (record : Record) {numHs : List String} {k : String}
    (hnd : numHs.Nodup) (hk : k ∈ numHs) :
    assocFind (initNumeric record numHs) k = some (CellVal.num (getColumnData record (some k))) :=
  assocFind_initNumeric_mem record hnd hk record

/-! ### The consolidation invariant -/

theorem consStep_eq_skip {gH bH : String} (lH : Option String) (numHs : List String)
    (acc : List (String × Record)) {r : Record}
    (hval : consGstin gH r = "" ∨ consGstin bH r = "") :
    consStep gH bH lH numHs acc r = acc := by
  simp only [consStep]
  rw [if_pos hval]

theorem consStep_eq_new {gH bH : String} (lH : Option String) (numHs : List String)
    {acc : List (String × Record)} {r : Record}
    (hval : ¬(consGstin gH r = "" ∨ consGstin bH r = ""))
    (hfind : assocFind acc (consKeyOf gH bH r) = none) :
    consStep gH bH lH numHs acc r = acc ++ [(consKeyOf gH bH r, initNumeric r numHs)] := by
  simp only [consStep]
  rw [if_neg hval, hfind]

theorem consStep_eq_update {gH bH : String} (lH : Option String) (numHs : List String)
    {acc : List (String × Record)} {r existing : Record}
    (hval : ¬(consGstin gH r = "" ∨ consGstin bH r = ""))
    (hfind : assocFind acc (consKeyOf gH bH r) = some existing) :
    consStep gH bH lH numHs acc r
      = assocSet acc (consKeyOf gH bH r) (backfillLegal r lH (addNumeric r numHs existing)) := by
  simp only [consStep]
  rw [if_neg hval, hfind]

theorem consInv_step {gH bH : String} {lH : Option String} {numHs : List String}
    (hs : HeaderSep gH bH lH numHs) {acc : List (String × Record)} {processed : List Record}
    (inv : ConsInv gH bH numHs acc processed) (r : Record) :
    ConsInv gH bH numHs (consStep gH bH lH numHs acc r) (processed ++ [r]) := by
  by_cases hval : consGstin gH r = "" ∨ consGstin bH r = ""
  · rw [consStep_eq_skip lH numHs acc hval]
    have hvk := validKeyB_false_of hval
    refine ⟨?_, ?_, ?_⟩
    · rw [inv.keys_eq, validConsKeys_append_invalid hvk]
    · intro k r1 h1
      obtain ⟨r0, hmem, h2, h3, h4, h5⟩ := inv.find_src k r1 h1
      exact ⟨r0, List.mem_append_left _ hmem, h2, h3, h4, h5⟩
    · intro k r1 h1 h hmem
      rw [inv.find_sum k r1 h1 h hmem, keySum_append_nomatch (Or.inl hvk)]
  · have hvk := validKeyB_true_of hval
    cases hfind : assocFind acc (consKeyOf gH bH r) with
    | none =>
        rw [consStep_eq_new lH numHs hval hfind]
        have hkeynotin : consKeyOf gH bH r ∉ assocKeys acc := (assocFind_eq_none_iff _ _).mp hfind
        have hkeynotproc : consKeyOf gH bH r ∉ validConsKeys gH bH processed := by
          intro hc
          exact hkeynotin (inv.keys_eq ▸ (mem_dedupFirst _ _).mpr hc)
        refine ⟨?_, ?_, ?_⟩
        · have hks : assocKeys (acc ++ [(consKeyOf gH bH r, initNumeric r numHs)])
              = assocKeys acc ++ [consKeyOf gH bH r] := by simp [assocKeys]
          rw [hks, inv.keys_eq, validConsKeys_append_valid hvk,
            dedupFirst_append_not_mem _ hkeynotproc]
        · intro k r1 h1
          cases hacc : assocFind acc k with
          | some w =>
              rw [assocFind_append_of_some hacc] at h1
              injection h1 with h1e
              subst h1e
              obtain ⟨r0, hmem, h2, h3, h4, h5⟩ := inv.find_src k w hacc
              exact ⟨r0, List.mem_append_left _ hmem, h2, h3, h4, h5⟩
          | none =>
              rw [assocFind_append_of_none hacc] at h1
              by_cases hk : consKeyOf gH bH r = k
              · have h1e : initNumeric r numHs = r1 := by
                  simpa [assocFind, hk] using h1
                subst h1e
                refine ⟨r, List.mem_append_right _ (by simp), hvk, hk, ?_, ?_⟩
                · exact find_initNumeric_not_mem r hs.g_not
                · exact find_initNumeric_not_mem r hs.b_not
              · simp [assocFind, hk] at h1
        · intro k r1 h1 h hmem
          cases hacc : assocFind acc k with
          | some w =>
              rw [assocFind_append_of_some hacc] at h1
              injection h1 with h1e
              subst h1e
              have hkne : consKeyOf gH bH r ≠ k := by
                intro he
                rw [he, hacc] at hfind
                cases hfind
              rw [inv.find_sum k w hacc h hmem, keySum_append_nomatch (Or.inr hkne)]
          | none =>
              rw [assocFind_append_of_none hacc] at h1
              by_cases hk : consKeyOf gH bH r = k
              · have h1e : initNumeric r numHs = r1 := by
                  simpa [assocFind, hk] using h1
                subst h1e
                rw [find_initNumeric_mem r hs.nodup hmem,
                  keySum_append_match hvk hk, keySum_eq_zero_of_not_mem (hk ▸ hkeynotproc), zero_add]
              · simp [assocFind, hk] at h1
    | some existing =>
        rw [consStep_eq_update lH numHs hval hfind]
        have hkeyin : consKeyOf gH bH r ∈ assocKeys acc := by
          by_contra hc
          rw [(assocFind_eq_none_iff _ _).mpr hc] at hfind
          cases hfind
        have hkeyproc : consKeyOf gH bH r ∈ validConsKeys gH bH processed :=
          (mem_dedupFirst _ _).mp (inv.keys_eq ▸ hkeyin)
        refine ⟨?_, ?_, ?_⟩
        · rw [assocKeys_assocSet_of_find_some hfind, inv.keys_eq,
            validConsKeys_append_valid hvk, dedupFirst_append_mem _ hkeyproc]
        · intro k r1 h1
          by_cases hk : consKeyOf gH bH r = k
          · subst hk
            rw [assocFind_assocSet_self] at h1
            injection h1 with h1e
            subst h1e
            obtain ⟨r0, hmem, h2, h3, h4, h5⟩ := inv.find_src _ existing hfind
            refine ⟨r0, List.mem_append_left _ hmem, h2, h3, ?_, ?_⟩
            · rw [assocFind_backfillLegal_ne r lH _ (fun s hsome => (hs.l_not s hsome).2.1),
                assocFind_addNumeric_not_mem r hs.g_not existing, h4]
            · rw [assocFind_backfillLegal_ne r lH _ (fun s hsome => (hs.l_not s hsome).2.2),
                assocFind_addNumeric_not_mem r hs.b_not existing, h5]
          · rw [assocFind_assocSet_ne _ _ hk] at h1
            obtain ⟨r0, hmem, h2, h3, h4, h5⟩ := inv.find_src k r1 h1
            exact ⟨r0, List.mem_append_left _ hmem, h2, h3, h4, h5⟩
        · intro k r1 h1 h hmem
          by_cases hk : consKeyOf gH bH r = k
          · subst hk
            rw [assocFind_assocSet_self] at h1
            injection h1 with h1e
            subst h1e
            have hlh : ∀ s, lH = some s → s ≠ h :=
              fun s hsome he => (hs.l_not s hsome).1 (he ▸ hmem)
            rw [assocFind_backfillLegal_ne r lH _ hlh,
              assocFind_addNumeric_mem r hs.nodup hmem existing,
              inv.find_sum _ existing hfind h hmem,
              keySum_append_match hvk rfl]
            simp [jsOrZero]
          · rw [assocFind_assocSet_ne _ _ hk] at h1
            rw [inv.find_sum k r1 h1 h hmem, keySum_append_nomatch (Or.inr hk)]

theorem consInv_fold {gH bH : String} {lH : Option String} {numHs : List String}
    (hs : HeaderSep gH bH lH numHs) :
    ∀ (records : List Record) (acc : List (String × Record)) (processed : List Record),
      ConsInv gH bH numHs acc processed →
      ConsInv gH bH numHs (records.foldl (consStep gH bH lH numHs) acc) (processed ++ records) := by
  intro records
  induction records with
  | nil => intro acc processed inv; simpa using inv
  | cons r t ih =>
      intro acc processed inv
      have step := consInv_step hs inv r
      have := ih (consStep gH bH lH numHs acc r) (processed ++ [r]) step
      simpa [List.append_assoc] using this

theorem consInv_nil (gH bH : String) (numHs : List String) :
    ConsInv gH bH numHs [] [] := by
  refine ⟨rfl, ?_, ?_⟩
  · intro k r1 h1
    simp [assocFind] at h1
  · intro k r1 h1
    simp [assocFind] at h1

theorem consFold_inv {gH bH : String} {lH : Option String} {numHs : List String}
    (hs : HeaderSep gH bH lH numHs) (records : List Record) :
    ConsInv gH bH numHs (consFold gH bH lH numHs records) records := by
  have := consInv_fold hs records [] [] (consInv_nil gH bH numHs)
  simpa [consFold] using this

/-! ### Consequences for consolidateInvoices -/

theorem consGstin_congr {r1 r0 : Record} {h : String}
    (he : assocFind r1 h = assocFind r0 h) : consGstin h r1 = consGstin h r0 := by
  simp [consGstin, fieldToString, he]

theorem consKeyOf_congr {gH bH : String} {r1 r0 : Record}
    (hg : assocFind r1 gH = assocFind r0 gH) (hb : assocFind r1 bH = assocFind r0 bH) :
    consKeyOf gH bH r1 = consKeyOf gH bH r0 := by
  simp [consKeyOf, consGstin_congr hg, consGstin_congr hb]

theorem append_ne_empty_left {a : String} (h : a ≠ "") (b : String) : a ++ b ≠ "" := by
  intro hc
  apply h
  apply eq_empty_of_data_eq_nil
  have hd := data_eq_nil_of_eq_empty hc
  rw [data_append] at hd
  exact (List.append_eq_nil.mp hd).1

theorem consFold_keys_nodup {gH bH : String} {lH : Option String} {numHs : List String}
    (hs : HeaderSep gH bH lH numHs) (records : List Record) :
    (assocKeys (consFold gH bH lH numHs records)).Nodup := by
  rw [(consFold_inv hs records).keys_eq]
  exact nodup_dedupFirst _

theorem consolidate_record_spec {gH bH : String} {lH : Option String} {nhs : List (Option String)}
    (hs : HeaderSep gH bH lH (resolvedHeaders nhs)) (records : List Record) :
    ∀ r ∈ consolidateInvoices records gH bH lH nhs,
      validKeyB gH bH r = true ∧
      (∀ h ∈ resolvedHeaders nhs,
        assocFind r h = some (CellVal.num (keySum gH bH records (consKeyOf gH bH r) h))) := by
  intro r hr
  simp only [consolidateInvoices] at hr
  obtain ⟨p, hp, hpr⟩ := List.mem_map.mp hr
  obtain ⟨k, r1⟩ := p
  cases hpr
  have inv := consFold_inv hs records
  have hnd := consFold_keys_nodup hs records
  have hfind := assocFind_of_mem_nodup hnd hp
  obtain ⟨r0, hmem, hval0, hkey0, hg, hb⟩ := inv.find_src k r1 hfind
  have hkeyr : consKeyOf gH bH r1 = k := by rw [consKeyOf_congr hg hb, hkey0]
  constructor
  · rw [validKeyB_true_iff]
    have hv0 := (validKeyB_true_iff gH bH r0).mp hval0
    exact ⟨by rw [consGstin_congr hg]; exact hv0.1, by rw [consGstin_congr hb]; exact hv0.2⟩
  · intro h hmem2
    rw [hkeyr]
    exact inv.find_sum k r1 hfind h hmem2

theorem consolidate_keys_eq {gH bH : String} {lH : Option String} {nhs : List (Option String)}
    (hs : HeaderSep gH bH lH (resolvedHeaders nhs)) (records : List Record) :
    (consolidateInvoices records gH bH lH nhs).map (consKeyOf gH bH)
      = dedupFirst (validConsKeys gH bH records) := by
  have inv := consFold_inv hs records
  have hnd := consFold_keys_nodup hs records
  simp only [consolidateInvoices, List.map_map]
  have hcongr : ∀ p ∈ consFold gH bH lH (resolvedHeaders nhs) records,
      (consKeyOf gH bH ∘ Prod.snd) p = Prod.fst p := by
    intro p hp
    obtain ⟨k, r1⟩ := p
    have hfind := assocFind_of_mem_nodup hnd hp
    obtain ⟨r0, _, _, hkey0, hg, hb⟩ := inv.find_src k r1 hfind
    simp only [Function.comp_apply]
    rw [consKeyOf_congr hg hb, hkey0]
  rw [List.map_congr_left hcongr]
  simpa [assocKeys] using inv.keys_eq

theorem consolidate_matchKey_ne {gH bH : String} {lH : Option String} {nhs : List (Option String)}
    (hs : HeaderSep gH bH lH (resolvedHeaders nhs)) (records : List Record) :
    ∀ r ∈ consolidateInvoices records gH bH lH nhs, matchKeyOf gH bH r ≠ "" := by
  intro r hr
  have hval := (consolidate_record_spec hs records r hr).1
  have hg : consGstin gH r ≠ "" := ((validKeyB_true_iff gH bH r).mp hval).1
  have htrim : trimStr (fieldToString r gH) ≠ "" := by
    intro hc
    apply hg
    simp only [consGstin]
    rw [hc]
    rfl
  have hstrip : stripWs (fieldToString r gH) ≠ "" := stripWs_ne_empty_of_trim_ne htrim
  simp only [matchKeyOf]
  intro hc
  rw [upperStr_eq_empty_iff, stripWs_append] at hc
  exact append_ne_empty_left hstrip _ hc

theorem consolidate_skip_record {gH bH : String} (lH : Option String) (nhs : List (Option String))
    {r : Record} (hr : trimStr (fieldToString r gH) = "" ∨ trimStr (fieldToString r bH) = "")
    (l1 l2 : List Record) :
    consolidateInvoices (l1 ++ r :: l2) gH bH lH nhs
      = consolidateInvoices (l1 ++ l2) gH bH lH nhs := by
  have hval : consGstin gH r = "" ∨ consGstin bH r = "" := by
    rcases hr with h | h
    · exact Or.inl (by simp only [consGstin]; rw [h]; rfl)
    · exact Or.inr (by simp only [consGstin]; rw [h]; rfl)
  simp only [consolidateInvoices, consFold]
  rw [List.foldl_append, List.foldl_cons, consStep_eq_skip _ _ _ hval, ← List.foldl_append]

/-! ### Field lemmas for the merged output records -/

theorem renameGstrFields_keys_ne (g : Record) (t : String) (ht : t.data.head? ≠ some 'G') :
    ∀ e ∈ renameGstrFields g, e.1 ≠ t := by
  intro e he
  obtain ⟨kv, _, rfl⟩ := List.mem_map.mp he
  exact gstr_prefixed_ne ht kv.1

theorem find_mkMatchedRecord_status (bh gh : SheetHeaders) (b g : Record) :
    assocFind (mkMatchedRecord bh gh b g) "Recon Status" = some (CellVal.str "Matched") := by
  simp only [mkMatchedRecord, spreadInto_append]
  rw [assocFind_spreadInto_not_mem (renameGstrFields_keys_ne g _ (by decide))]
  simp only [spreadInto, List.foldl_cons, List.foldl_nil]
  rw [assocFind_assocSet_ne _ _ (by decide), assocFind_assocSet_ne _ _ (by decide),
    assocFind_assocSet_ne _ _ (by decide), assocFind_assocSet_ne _ _ (by decide),
    assocFind_assocSet_ne _ _ (by decide), assocFind_assocSet_self]

theorem find_mkMatchedRecord_diffTax (bh gh : SheetHeaders) (b g : Record) :
    assocFind (mkMatchedRecord bh gh b g) "Diff Taxable Value (₹)"
      = some (CellVal.str (diffCell (getColumnData b bh.taxableH - getColumnData g gh.taxableH))) := by
  simp only [mkMatchedRecord, spreadInto_append]
  rw [assocFind_spreadInto_not_mem (renameGstrFields_keys_ne g _ (by decide))]
  simp only [spreadInto, List.foldl_cons, List.foldl_nil]
  rw [assocFind_assocSet_ne _ _ (by decide), assocFind_assocSet_ne _ _ (by decide),
    assocFind_assocSet_ne _ _ (by decide), assocFind_assocSet_ne _ _ (by decide),
    assocFind_assocSet_self]

theorem find_mkMatchedRecord_diffIgst (bh gh : SheetHeaders) (b g : Record) :
    assocFind (mkMatchedRecord bh gh b g) "Diff Integrated Tax(₹)"
      = some (CellVal.str (diffCell (getColumnData b bh.igstH - getColumnData g gh.igstH))) := by
  simp only [mkMatchedRecord, spreadInto_append]
  rw [assocFind_spreadInto_not_mem (renameGstrFields_keys_ne g _ (by decide))]
  simp only [spreadInto, List.foldl_cons, List.foldl_nil]
  rw [assocFind_assocSet_ne _ _ (by decide), assocFind_assocSet_ne _ _ (by decide),
    assocFind_assocSet_ne _ _ (by decide), assocFind_assocSet_self]

theorem find_mkMatchedRecord_diffCgst (bh gh : SheetHeaders) (b g : Record) :
    assocFind (mkMatchedRecord bh gh b g) "Diff Central Tax(₹)"
      = some (CellVal.str (diffCell (getColumnData b bh.cgstH - getColumnData g gh.cgstH))) := by
  simp only [mkMatchedRecord, spreadInto_append]
  rw [assocFind_spreadInto_not_mem (renameGstrFields_keys_ne g _ (by decide))]
  simp only [spreadInto, List.foldl_cons, List.foldl_nil]
  rw [assocFind_assocSet_ne _ _ (by decide), assocFind_assocSet_ne _ _ (by decide),
    assocFind_assocSet_self]

theorem find_mkMatchedRecord_diffSgst (bh gh : SheetHeaders) (b g : Record) :
    assocFind (mkMatchedRecord bh gh b g) "Diff State/UT Tax(₹)"
      = some (CellVal.str (diffCell (getColumnData b bh.sgstH - getColumnData g gh.sgstH))) := by
  simp only [mkMatchedRecord, spreadInto_append]
  rw [assocFind_spreadInto_not_mem (renameGstrFields_keys_ne g _ (by decide))]
  simp only [spreadInto, List.foldl_cons, List.foldl_nil]
  rw [assocFind_assocSet_ne _ _ (by decide), assocFind_assocSet_self]

theorem find_mkMatchedRecord_diffCess (bh gh : SheetHeaders) (b g : Record) :
    assocFind (mkMatchedRecord bh gh b g) "Diff Cess(₹)"
      = some (CellVal.str (diffCell (getColumnData b bh.cessH - getColumnData g gh.cessH))) := by
  simp only [mkMatchedRecord, spreadInto_append]
  rw [assocFind_spreadInto_not_mem (renameGstrFields_keys_ne g _ (by decide))]
  simp only [spreadInto, List.foldl_cons, List.foldl_nil]
  rw [assocFind_assocSet_self]

theorem find_mkFuzzyRecord_status (b g : Record) :
    assocFind (mkFuzzyRecord b g) "Recon Status" = some (CellVal.str "Partially Matched") := by
  simp only [mkFuzzyRecord, spreadInto_append]
  simp only [spreadInto, List.foldl_cons, List.foldl_nil]
  rw [assocFind_assocSet_self]

/-! ### Conservation counts of a reconciliation run -/

theorem reconcile_books_counts (bh gh : SheetHeaders) (books gstr : List Record)
    (t : Gstr2bType) :
    (reconcileCore bh gh books gstr t).matchedRecords.length
      + (reconcileCore bh gh books gstr t).fuzzyMatchedRecords.length
      + (reconcileCore bh gh books gstr t).finalOnlyInBooks.length = books.length := by
  rw [reconcileCore_matched, reconcileCore_fuzzy, reconcileCore_onlyInBooks]
  have h1 := (phase1_fold_counts bh gh books ⟨buildGstr2bMap gh gstr, [], []⟩).2
  have h2 := (phase2_fold_counts bh gh
      (books.foldl (phase1Step bh gh) ⟨buildGstr2bMap gh gstr, [], []⟩).onlyInBooksInitial
      ⟨(books.foldl (phase1Step bh gh) ⟨buildGstr2bMap gh gstr, [], []⟩).map.map Prod.snd, [], []⟩).2
  simp only [List.length_nil] at h1 h2
  omega

theorem reconcile_gstr_counts (bh gh : SheetHeaders) (books gstr : List Record)
    (t : Gstr2bType)
    (hne : ∀ r ∈ gstr, matchKeyOf gh.gstinH gh.billNoH r ≠ "")
    (hnd : (gstr.map (matchKeyOf gh.gstinH gh.billNoH)).Nodup) :
    (reconcileCore bh gh books gstr t).matchedRecords.length
      + (reconcileCore bh gh books gstr t).fuzzyMatchedRecords.length
      + (reconcileCore bh gh books gstr t).finalOnlyInGstr2b.length = gstr.length := by
  have hmap := length_buildGstr2bMap gh gstr hne hnd
  rw [reconcileCore_matched, reconcileCore_fuzzy, reconcileCore_onlyInGstr2b]
  have h1 := (phase1_fold_counts bh gh books ⟨buildGstr2bMap gh gstr, [], []⟩).1
  have h2 := (phase2_fold_counts bh gh
      (books.foldl (phase1Step bh gh) ⟨buildGstr2bMap gh gstr, [], []⟩).onlyInBooksInitial
      ⟨(books.foldl (phase1Step bh gh) ⟨buildGstr2bMap gh gstr, [], []⟩).map.map Prod.snd, [], []⟩).1
  simp only [List.length_nil, List.length_map] at h1 h2 ⊢
  omega

/-! ### Header-scan characterization -/

theorem scanHeaderRow_eq_none_iff :
    ∀ (l : List (List CellVal)) (fuel : ℕ),
      scanHeaderRow fuel l = none ↔
        ∀ i, i < min fuel l.length → rowQualifies (rowHeaderStrings (l.getD i [])) = false := by
  intro l
  induction l with
  | nil => intro fuel; cases fuel <;> simp [scanHeaderRow]
  | cons row rest ih =>
      intro fuel
      cases fuel with
      | zero => simp [scanHeaderRow]
      | succ f =>
          simp only [scanHeaderRow, List.length_cons, Nat.succ_min_succ]
          by_cases hq : rowQualifies (rowHeaderStrings row) = true
          · rw [if_pos hq]
            constructor
            · intro h; exact absurd h (by simp)
            · intro h
              exfalso
              have h0 := h 0 (Nat.succ_pos _)
              rw [List.getD_cons_zero, hq] at h0
              exact absurd h0 (by decide)
          · have hq1 : rowQualifies (rowHeaderStrings row) = false := by
              simpa using hq
            rw [if_neg hq]
            cases he : scanHeaderRow f rest with
            | some pr =>
                obtain ⟨i0, hs0⟩ := pr
                simp only []
                constructor
                · intro h; exact absurd h (by simp)
                · intro h
                  exfalso
                  have hsome : ¬ (scanHeaderRow f rest = none) := by rw [he]; simp
                  rw [ih f] at hsome
                  push_neg at hsome
                  obtain ⟨j, hj, hqj⟩ := hsome
                  have hj1 := h (j + 1) (Nat.succ_lt_succ hj)
                  rw [List.getD_cons_succ] at hj1
                  exact hqj hj1
            | none =>
                simp only []
                constructor
                · intro _ i hi
                  cases i with
                  | zero => simpa [List.getD_cons_zero] using hq1
                  | succ j =>
                      have hj : j < min f rest.length := Nat.lt_of_succ_lt_succ hi
                      rw [List.getD_cons_succ]
                      exact ((ih f).mp he) j hj
                · intro _; trivial

theorem parseSheet_headerNotFound_iff (sheetData : List (List CellVal))
    (hne : 1 ≤ sheetData.length) :
    parseSheet sheetData = Except.error ParseError.headerNotFound ↔
      ∀ i, i < min 15 sheetData.length →
        rowQualifies (rowHeaderStrings (sheetData.getD i [])) = false := by
  have hlt : ¬ sheetData.length < 1 := by omega
  simp only [parseSheet, if_neg hlt]
  cases he : scanHeaderRow 15 sheetData with
  | none =>
      simp only [he]
      constructor
      · intro _; exact (scanHeaderRow_eq_none_iff sheetData 15).mp he
      · intro _; trivial
  | some pr =>
      obtain ⟨i, headers⟩ := pr
      simp only [he]
      constructor
      · intro h
        by_cases hz : (((sheetData.drop (i + 1)).map (rowToRecord headers)).filter
            nonEmptyRecord).length = 0
        · rw [if_pos hz] at h
          simp at h
        · rw [if_neg hz] at h
          simp at h
      · intro h
        exfalso
        have hnone : scanHeaderRow 15 sheetData = none :=
          (scanHeaderRow_eq_none_iff sheetData 15).mpr h
        rw [he] at hnone
        exact absurd hnone (by simp)

/-! ### Claim theorems -/

/-- C1 counterexample: the GSTR-2B conservation count fails as universally
stated.  The raw rows c1GstrA and c1GstrB consolidate to two distinct records
(consolidation keys AB-C and A-BC) whose match keys are both ABC, so the
exact-match map keeps only the last one and the three buckets sum to 1 while
the consolidated GSTR-2B sheet has 2 records. -/
theorem c1_counterexample :
    (reconcilePipeline whGH whGH [] [c1GstrA, c1GstrB] Gstr2bType.Other).matchedRecords.length
      + (reconcilePipeline whGH whGH [] [c1GstrA, c1GstrB] Gstr2bType.Other).fuzzyMatchedRecords.length
      + (reconcilePipeline whGH whGH [] [c1GstrA, c1GstrB] Gstr2bType.Other).finalOnlyInGstr2b.length
      = 1
    ∧ (consolidateInvoices [c1GstrA, c1GstrB] whGH.gstinH whGH.billNoH whGH.legalNameH
        (numericHeadersOf whGH)).length = 2
    ∧ (1 : ℕ) ≠ 2 := by
  refine ⟨by decide, by decide, by decide⟩

/-- C1 amended: for every pair of input datasets whose consolidated GSTR-2B
records have pairwise-distinct match keys (the situation the spec assumes,
in which last-write-wins never discards a record), the GSTR-2B records are
conserved: matched plus partially-matched plus Only-in-GSTR-2B equals the
number of consolidated GSTR-2B records.  The HeaderSep hypothesis records
that the resolved headers of distinct canonical fields are distinct strings,
which holds for every configuration the alias tables can produce. -/
theorem c1_gstr2b_conservation_amended (bh gh : SheetHeaders)
    (rawBooks rawGstr : List Record) (t : Gstr2bType)
    (hs : HeaderSep gh.gstinH gh.billNoH gh.legalNameH (resolvedHeaders (numericHeadersOf gh)))
    (hnd : ((consolidateInvoices rawGstr gh.gstinH gh.billNoH gh.legalNameH
        (numericHeadersOf gh)).map (matchKeyOf gh.gstinH gh.billNoH)).Nodup) :
    (reconcilePipeline bh gh rawBooks rawGstr t).matchedRecords.length
      + (reconcilePipeline bh gh rawBooks rawGstr t).fuzzyMatchedRecords.length
      + (reconcilePipeline bh gh rawBooks rawGstr t).finalOnlyInGstr2b.length
      = (consolidateInvoices rawGstr gh.gstinH gh.billNoH gh.legalNameH
          (numericHeadersOf gh)).length :=
  reconcile_gstr_counts bh gh _ _ t (consolidate_matchKey_ne hs rawGstr) hnd

/-- C1 witness: the amended conservation at a concrete one-record GSTR-2B
input. -/
theorem c1_gstr2b_conservation_witness :
    (reconcilePipeline whGH whGH [] [wGstr1] Gstr2bType.Other).matchedRecords.length
      + (reconcilePipeline whGH whGH [] [wGstr1] Gstr2bType.Other).fuzzyMatchedRecords.length
      + (reconcilePipeline whGH whGH [] [wGstr1] Gstr2bType.Other).finalOnlyInGstr2b.length
      = (consolidateInvoices [wGstr1] whGH.gstinH whGH.billNoH whGH.legalNameH
          (numericHeadersOf whGH)).length :=
  c1_gstr2b_conservation_amended whGH whGH [] [wGstr1] Gstr2bType.Other
    ⟨by decide, by decide, by decide, fun s h => nomatch h⟩ (by decide)

/-- C2: the consolidated Books records are partitioned by the matcher: every
Books record lands in exactly one of matched, partially matched or Only in
Books, so the three bucket sizes always sum to the consolidated Books count;
phase 2 iterates exactly over the books records phase 1 did not match. -/
theorem c2_books_partition (bh gh : SheetHeaders) (rawBooks rawGstr : List Record)
    (t : Gstr2bType) :
    (reconcilePipeline bh gh rawBooks rawGstr t).matchedRecords.length
      + (reconcilePipeline bh gh rawBooks rawGstr t).fuzzyMatchedRecords.length
      + (reconcilePipeline bh gh rawBooks rawGstr t).finalOnlyInBooks.length
      = (consolidateInvoices rawBooks bh.gstinH bh.billNoH bh.legalNameH
          (numericHeadersOf bh)).length :=
  reconcile_books_counts bh gh _ _ t

/-- C4: consolidation skips every record whose trimmed GSTIN or trimmed
invoice number is empty; every resolved numeric field of an output record is
the sum of the coerced column values over all input records of its
consolidation key; and the legal name of the group record is never changed
by a later line item once it is truthy (backfill happens only into an empty
legal name). -/
theorem c4_consolidation_semantics {gH bH : String} (lH : Option String)
    (nhs : List (Option String)) (hs : HeaderSep gH bH lH (resolvedHeaders nhs)) :
    (∀ (l1 l2 : List Record) (r : Record),
      trimStr (fieldToString r gH) = "" ∨ trimStr (fieldToString r bH) = "" →
      consolidateInvoices (l1 ++ r :: l2) gH bH lH nhs
        = consolidateInvoices (l1 ++ l2) gH bH lH nhs) ∧
    (∀ records : List Record, ∀ r ∈ consolidateInvoices records gH bH lH nhs,
      ∀ h ∈ resolvedHeaders nhs,
        assocFind r h = some (CellVal.num (keySum gH bH records (consKeyOf gH bH r) h))) ∧
    (∀ (record existing : Record) (lh : String), lH = some lh →
      truthy (assocFind existing lh) = true →
      assocFind (backfillLegal record lH (addNumeric record (resolvedHeaders nhs) existing)) lh
        = assocFind existing lh) := by
  refine ⟨?_, ?_, ?_⟩
  · intro l1 l2 r hr
    exact consolidate_skip_record lH nhs hr l1 l2
  · intro records r hr h hh
    exact (consolidate_record_spec hs records r hr).2 h hh
  · intro record existing lh hsome htr
    have hnot : lh ∉ resolvedHeaders nhs := (hs.l_not lh hsome).1
    have he := assocFind_addNumeric_not_mem record hnot existing
    subst hsome
    simp only [backfillLegal]
    have hcond : ¬(lh ≠ "" ∧
        truthy (assocFind (addNumeric record (resolvedHeaders nhs) existing) lh) = false ∧
        truthy (assocFind record lh) = true) := by
      intro hc
      rw [he, htr] at hc
      exact absurd hc.2.1 (by decide)
    rw [if_neg hcond, he]

/-- C4 witness: two line items with the same key and taxable values 600 and
400 consolidate to a single record whose taxable value is the sum 1000. -/
theorem c4_consolidation_semantics_witness :
    assocFind ((consolidateInvoices [wB600, wB400] "GSTIN" "Invoice Number" none
        [some "Taxable Value"]).headI) "Taxable Value" = some (CellVal.num 1000) := by
  have hs : HeaderSep "GSTIN" "Invoice Number" none (resolvedHeaders [some "Taxable Value"]) :=
    ⟨by decide, by decide, by decide, fun s h => nomatch h⟩
  have hne : consolidateInvoices [wB600, wB400] "GSTIN" "Invoice Number" none
      [some "Taxable Value"] ≠ [] := by
    intro h
    have hlen : (consolidateInvoices [wB600, wB400] "GSTIN" "Invoice Number" none
        [some "Taxable Value"]).length = 1 := by decide
    rw [h] at hlen
    exact absurd hlen (by decide)
  have hsum := (c4_consolidation_semantics none [some "Taxable Value"] hs).2.1
    [wB600, wB400] _ (List.head!_mem_self hne) "Taxable Value" (by decide)
  have hhead : (consolidateInvoices [wB600, wB400] "GSTIN" "Invoice Number" none
      [some "Taxable Value"]).head!
      = (consolidateInvoices [wB600, wB400] "GSTIN" "Invoice Number" none
        [some "Taxable Value"]).headI := rfl
  rw [hhead] at hsum
  rw [hsum]
  have hks : keySum "GSTIN" "Invoice Number" [wB600, wB400]
      (consKeyOf "GSTIN" "Invoice Number"
        ((consolidateInvoices [wB600, wB400] "GSTIN" "Invoice Number" none
          [some "Taxable Value"]).headI)) "Taxable Value" = 600 + (400 + 0) := rfl
  rw [hks]
  norm_num

/-- C5: no two consolidated records share a consolidation key, and the key
sequence of the output is the first-appearance order of the keys of the
valid input records. -/
theorem c5_keys_unique_ordered {gH bH : String} (lH : Option String)
    (nhs : List (Option String)) (records : List Record)
    (hs : HeaderSep gH bH lH (resolvedHeaders nhs)) :
    ((consolidateInvoices records gH bH lH nhs).map (consKeyOf gH bH)).Nodup ∧
    (consolidateInvoices records gH bH lH nhs).map (consKeyOf gH bH)
      = dedupFirst (validConsKeys gH bH records) := by
  have he := consolidate_keys_eq hs records
  exact ⟨he ▸ nodup_dedupFirst _, he⟩

/-- C5 witness: the unique ordered keys at a concrete two-line input. -/
theorem c5_keys_unique_ordered_witness :
    ((consolidateInvoices [wB600, wB400] "GSTIN" "Invoice Number" none
        [some "Taxable Value"]).map (consKeyOf "GSTIN" "Invoice Number")).Nodup ∧
    (consolidateInvoices [wB600, wB400] "GSTIN" "Invoice Number" none
        [some "Taxable Value"]).map (consKeyOf "GSTIN" "Invoice Number")
      = dedupFirst (validConsKeys "GSTIN" "Invoice Number" [wB600, wB400]) :=
  c5_keys_unique_ordered none [some "Taxable Value"] [wB600, wB400]
    ⟨by decide, by decide, by decide, fun s h => nomatch h⟩

/-- C7: the declared report type controls the split of the Only-in-GSTR-2B
residual: B2B puts the whole residual into invoices and leaves credit notes
empty, CDNR is symmetric, and only Other splits by the sign of the coerced
taxable value. -/
theorem c7_report_type_split (bh gh : SheetHeaders) (books gstr : List Record) :
    ((reconcileCore bh gh books gstr Gstr2bType.B2B).invoicesInGstr2bNotInBook
        = (reconcileCore bh gh books gstr Gstr2bType.B2B).finalOnlyInGstr2b ∧
      (reconcileCore bh gh books gstr Gstr2bType.B2B).creditNotesInGstr2bNotInBook = []) ∧
    ((reconcileCore bh gh books gstr Gstr2bType.CDNR).creditNotesInGstr2bNotInBook
        = (reconcileCore bh gh books gstr Gstr2bType.CDNR).finalOnlyInGstr2b ∧
      (reconcileCore bh gh books gstr Gstr2bType.CDNR).invoicesInGstr2bNotInBook = []) ∧
    ((reconcileCore bh gh books gstr Gstr2bType.Other).invoicesInGstr2bNotInBook
        = (reconcileCore bh gh books gstr Gstr2bType.Other).finalOnlyInGstr2b.filter
            (fun r => decide (0 ≤ getColumnData r gh.taxableH)) ∧
      (reconcileCore bh gh books gstr Gstr2bType.Other).creditNotesInGstr2bNotInBook
        = (reconcileCore bh gh books gstr Gstr2bType.Other).finalOnlyInGstr2b.filter
            (fun r => decide (getColumnData r gh.taxableH < 0))) :=
  ⟨⟨rfl, rfl⟩, ⟨rfl, rfl⟩, rfl, rfl⟩

/-- Permutation invariance of the per-key column sums. -/
theorem keySum_perm {gH bH : String} {l1 l2 : List Record} (hp : l1.Perm l2)
    (k h : String) : keySum gH bH l1 k h = keySum gH bH l2 k h := by
  simp only [keySum]
  exact List.Perm.sum_eq ((hp.filter _).map _)

/-- C8: consolidating any permutation of the input yields, for records of
equal consolidation key, the same value in every resolved numeric field (the
per-key totals are order-independent; numbers are exact rationals here, so
addition is commutative). -/
theorem c8_order_independence {gH bH : String} (lH : Option String)
    (nhs : List (Option String)) {l1 l2 : List Record}
    (hs : HeaderSep gH bH lH (resolvedHeaders nhs)) (hperm : l1.Perm l2) :
    ∀ r1 ∈ consolidateInvoices l1 gH bH lH nhs,
      ∀ r2 ∈ consolidateInvoices l2 gH bH lH nhs,
        consKeyOf gH bH r1 = consKeyOf gH bH r2 →
        ∀ h ∈ resolvedHeaders nhs, assocFind r1 h = assocFind r2 h := by
  intro r1 h1 r2 h2 hk h hh
  rw [(consolidate_record_spec hs l1 r1 h1).2 h hh,
    (consolidate_record_spec hs l2 r2 h2).2 h hh, hk, keySum_perm hperm]

/-- C8 witness: the two orders of the 600/400 line items give records with
the same summed taxable value field. -/
theorem c8_order_independence_witness :
    assocFind ((consolidateInvoices [wB600, wB400] "GSTIN" "Invoice Number" none
        [some "Taxable Value"]).headI) "Taxable Value"
      = assocFind ((consolidateInvoices [wB400, wB600] "GSTIN" "Invoice Number" none
        [some "Taxable Value"]).headI) "Taxable Value" := by
  have hne1 : consolidateInvoices [wB600, wB400] "GSTIN" "Invoice Number" none
      [some "Taxable Value"] ≠ [] := by
    intro h
    have hlen : (consolidateInvoices [wB600, wB400] "GSTIN" "Invoice Number" none
        [some "Taxable Value"]).length = 1 := by decide
    rw [h] at hlen
    exact absurd hlen (by decide)
  have hne2 : consolidateInvoices [wB400, wB600] "GSTIN" "Invoice Number" none
      [some "Taxable Value"] ≠ [] := by
    intro h
    have hlen : (consolidateInvoices [wB400, wB600] "GSTIN" "Invoice Number" none
        [some "Taxable Value"]).length = 1 := by decide
    rw [h] at hlen
    exact absurd hlen (by decide)
  have h8 := c8_order_independence none [some "Taxable Value"]
    ⟨by decide, by decide, by decide, fun s h => nomatch h⟩ (by decide)
    _ (List.head!_mem_self hne1) _ (List.head!_mem_self hne2) (by decide)
    "Taxable Value" (by decide)
  have hh1 : (consolidateInvoices [wB600, wB400] "GSTIN" "Invoice Number" none
      [some "Taxable Value"]).head!
      = (consolidateInvoices [wB600, wB400] "GSTIN" "Invoice Number" none
        [some "Taxable Value"]).headI := rfl
  have hh2 : (consolidateInvoices [wB400, wB600] "GSTIN" "Invoice Number" none
      [some "Taxable Value"]).head!
      = (consolidateInvoices [wB400, wB600] "GSTIN" "Invoice Number" none
        [some "Taxable Value"]).headI := rfl
  rw [hh1, hh2] at h8
  exact h8

/-- C3: every record of the matched output is the merge of a books row and a
GSTR-2B row, and each of its five difference cells is exactly the string 0.00
when the absolute difference of the coerced column values is at most 2, and
otherwise that difference rendered with two decimal places. -/
theorem c3_matched_diff_strings (bh gh : SheetHeaders) (books gstr : List Record)
    (t : Gstr2bType) :
    ∀ m ∈ (reconcileCore bh gh books gstr t).matchedRecords,
      ∃ b g, m = mkMatchedRecord bh gh b g ∧
        assocFind m "Diff Taxable Value (₹)" = some (CellVal.str
          (if |getColumnData b bh.taxableH - getColumnData g gh.taxableH| ≤ 2 then "0.00"
           else toFixed2 (getColumnData b bh.taxableH - getColumnData g gh.taxableH))) ∧
        assocFind m "Diff Integrated Tax(₹)" = some (CellVal.str
          (if |getColumnData b bh.igstH - getColumnData g gh.igstH| ≤ 2 then "0.00"
           else toFixed2 (getColumnData b bh.igstH - getColumnData g gh.igstH))) ∧
        assocFind m "Diff Central Tax(₹)" = some (CellVal.str
          (if |getColumnData b bh.cgstH - getColumnData g gh.cgstH| ≤ 2 then "0.00"
           else toFixed2 (getColumnData b bh.cgstH - getColumnData g gh.cgstH))) ∧
        assocFind m "Diff State/UT Tax(₹)" = some (CellVal.str
          (if |getColumnData b bh.sgstH - getColumnData g gh.sgstH| ≤ 2 then "0.00"
           else toFixed2 (getColumnData b bh.sgstH - getColumnData g gh.sgstH))) ∧
        assocFind m "Diff Cess(₹)" = some (CellVal.str
          (if |getColumnData b bh.cessH - getColumnData g gh.cessH| ≤ 2 then "0.00"
           else toFixed2 (getColumnData b bh.cessH - getColumnData g gh.cessH))) := by
  intro m hm
  rw [reconcileCore_matched] at hm
  rcases phase1_matched_shape bh gh books _ m hm with h | ⟨b, g, rfl⟩
  · simp at h
  · refine ⟨b, g, rfl, ?_, ?_, ?_, ?_, ?_⟩
    · simpa [diffCell] using find_mkMatchedRecord_diffTax bh gh b g
    · simpa [diffCell] using find_mkMatchedRecord_diffIgst bh gh b g
    · simpa [diffCell] using find_mkMatchedRecord_diffCgst bh gh b g
    · simpa [diffCell] using find_mkMatchedRecord_diffSgst bh gh b g
    · simpa [diffCell] using find_mkMatchedRecord_diffCess bh gh b g

/-- C3 witness: the matched record of a concrete run with taxable values
1000 and 1001 satisfies the difference-cell characterization. -/
theorem c3_matched_diff_strings_witness :
    ∃ b g,
      (reconcileCore whGH whGH [wBook1] [wGstr1] Gstr2bType.B2B).matchedRecords.headI
        = mkMatchedRecord whGH whGH b g ∧
      assocFind ((reconcileCore whGH whGH [wBook1] [wGstr1] Gstr2bType.B2B).matchedRecords.headI)
          "Diff Taxable Value (₹)" = some (CellVal.str
        (if |getColumnData b whGH.taxableH - getColumnData g whGH.taxableH| ≤ 2 then "0.00"
         else toFixed2 (getColumnData b whGH.taxableH - getColumnData g whGH.taxableH))) ∧
      assocFind ((reconcileCore whGH whGH [wBook1] [wGstr1] Gstr2bType.B2B).matchedRecords.headI)
          "Diff Integrated Tax(₹)" = some (CellVal.str
        (if |getColumnData b whGH.igstH - getColumnData g whGH.igstH| ≤ 2 then "0.00"
         else toFixed2 (getColumnData b whGH.igstH - getColumnData g whGH.igstH))) ∧
      assocFind ((reconcileCore whGH whGH [wBook1] [wGstr1] Gstr2bType.B2B).matchedRecords.headI)
          "Diff Central Tax(₹)" = some (CellVal.str
        (if |getColumnData b whGH.cgstH - getColumnData g whGH.cgstH| ≤ 2 then "0.00"
         else toFixed2 (getColumnData b whGH.cgstH - getColumnData g whGH.cgstH))) ∧
      assocFind ((reconcileCore whGH whGH [wBook1] [wGstr1] Gstr2bType.B2B).matchedRecords.headI)
          "Diff State/UT Tax(₹)" = some (CellVal.str
        (if |getColumnData b whGH.sgstH - getColumnData g whGH.sgstH| ≤ 2 then "0.00"
         else toFixed2 (getColumnData b whGH.sgstH - getColumnData g whGH.sgstH))) ∧
      assocFind ((reconcileCore whGH whGH [wBook1] [wGstr1] Gstr2bType.B2B).matchedRecords.headI)
          "Diff Cess(₹)" = some (CellVal.str
        (if |getColumnData b whGH.cessH - getColumnData g whGH.cessH| ≤ 2 then "0.00"
         else toFixed2 (getColumnData b whGH.cessH - getColumnData g whGH.cessH))) := by
  have hne : (reconcileCore whGH whGH [wBook1] [wGstr1] Gstr2bType.B2B).matchedRecords ≠ [] := by
    intro h
    have hlen : (reconcileCore whGH whGH [wBook1] [wGstr1] Gstr2bType.B2B).matchedRecords.length
        = 1 := by decide
    rw [h] at hlen
    exact absurd hlen (by decide)
  have hhead : (reconcileCore whGH whGH [wBook1] [wGstr1] Gstr2bType.B2B).matchedRecords.head!
      = (reconcileCore whGH whGH [wBook1] [wGstr1] Gstr2bType.B2B).matchedRecords.headI := rfl
  have hm := List.head!_mem_self hne
  rw [hhead] at hm
  exact c3_matched_diff_strings whGH whGH [wBook1] [wGstr1] Gstr2bType.B2B _ hm

/-- C10: an exact key hit in phase 1 is matched unconditionally: the books
row is merged and tagged Matched no matter how large the numeric differences
are, and it is not queued for phase 2. -/
theorem c10_exact_match_unconditional (bh gh : SheetHeaders) (st : Phase1Out)
    (bookRow g : Record)
    (hfind : assocFind st.map (matchKeyOf bh.gstinH bh.billNoH bookRow) = some g) :
    (phase1Step bh gh st bookRow).matched = st.matched ++ [mkMatchedRecord bh gh bookRow g] ∧
    (phase1Step bh gh st bookRow).onlyInBooksInitial = st.onlyInBooksInitial ∧
    assocFind (mkMatchedRecord bh gh bookRow g) "Recon Status"
      = some (CellVal.str "Matched") := by
  refine ⟨?_, ?_, find_mkMatchedRecord_status bh gh bookRow g⟩
  · rw [phase1Step_eq_some bh gh st bookRow hfind]
  · rw [phase1Step_eq_some bh gh st bookRow hfind]

/-- C10 witness: a concrete key hit with a taxable difference of 1000000,
far beyond the tolerance, still produces a Matched record. -/
theorem c10_exact_match_unconditional_witness :
    (phase1Step whGH whGH ⟨[("27AAINV001", wGstr1)], [], []⟩ wBook1).matched
      = [] ++ [mkMatchedRecord whGH whGH wBook1 wGstr1] ∧
    (phase1Step whGH whGH ⟨[("27AAINV001", wGstr1)], [], []⟩ wBook1).onlyInBooksInitial = [] ∧
    assocFind (mkMatchedRecord whGH whGH wBook1 wGstr1) "Recon Status"
      = some (CellVal.str "Matched") :=
  c10_exact_match_unconditional whGH whGH ⟨[("27AAINV001", wGstr1)], [], []⟩ wBook1 wGstr1
    (by decide)

/-- C6: phase 2 is first-fit: when the pool has a qualifying candidate, the
one chosen is the first in pool order, it is removed from the pool and the
pair is tagged Partially Matched; with no qualifying candidate the books row
is tagged Only in Books and the pool is unchanged; and a candidate qualifies
exactly when the whitespace-stripped uppercased GSTINs agree, the legal-name
check passes (absent on either side or equal after trim, case-insensitively)
and the coerced taxable values differ by at most 2. -/
theorem c6_first_fit_fuzzy (bh gh : SheetHeaders) (st : Phase2Out) (bookRow : Record) :
    (∀ g rest, extractFirst (fuzzyMatchesB bh gh bookRow) st.pool = some (g, rest) →
      (phase2Step bh gh st bookRow).fuzzyMatched = st.fuzzyMatched ++ [mkFuzzyRecord bookRow g] ∧
      (phase2Step bh gh st bookRow).pool = rest ∧
      (phase2Step bh gh st bookRow).onlyInBooks = st.onlyInBooks ∧
      assocFind (mkFuzzyRecord bookRow g) "Recon Status"
        = some (CellVal.str "Partially Matched") ∧
      ∃ l1 l2, st.pool = l1 ++ g :: l2 ∧ rest = l1 ++ l2 ∧
        fuzzyMatchesB bh gh bookRow g = true ∧
        ∀ x ∈ l1, fuzzyMatchesB bh gh bookRow x = false) ∧
    (extractFirst (fuzzyMatchesB bh gh bookRow) st.pool = none →
      (∀ x ∈ st.pool, fuzzyMatchesB bh gh bookRow x = false) ∧
      (phase2Step bh gh st bookRow).onlyInBooks
        = st.onlyInBooks ++ [assocSet bookRow "Recon Status" (CellVal.str "Only in Books")] ∧
      (phase2Step bh gh st bookRow).pool = st.pool) ∧
    (∀ g, fuzzyMatchesB bh gh bookRow g = true ↔
      (upperStr (stripWs (fieldToString bookRow bh.gstinH))
          = upperStr (stripWs (fieldToString g gh.gstinH)) ∧
        (legalNameOf bh.legalNameH bookRow = none ∨ legalNameOf gh.legalNameH g = none ∨
          legalNameOf bh.legalNameH bookRow = legalNameOf gh.legalNameH g) ∧
        |getColumnData bookRow bh.taxableH - getColumnData g gh.taxableH| ≤ 2)) := by
  refine ⟨?_, ?_, ?_⟩
  · intro g rest hfind
    obtain ⟨l1, l2, hpool, hrest, hg, hall⟩ := extractFirst_eq_some_spec hfind
    refine ⟨?_, ?_, ?_, find_mkFuzzyRecord_status bookRow g, l1, l2, hpool, hrest, hg, hall⟩
    · rw [phase2Step_eq_some bh gh st bookRow hfind]
    · rw [phase2Step_eq_some bh gh st bookRow hfind]
    · rw [phase2Step_eq_some bh gh st bookRow hfind]
  · intro hfind
    refine ⟨extractFirst_eq_none_iff.mp hfind, ?_, ?_⟩
    · rw [phase2Step_eq_none bh gh st bookRow hfind]
    · rw [phase2Step_eq_none bh gh st bookRow hfind]
  · intro g
    simp only [fuzzyMatchesB]
    by_cases h1 : upperStr (stripWs (fieldToString bookRow bh.gstinH))
        ≠ upperStr (stripWs (fieldToString g gh.gstinH))
    · rw [if_pos h1]
      simp [h1]
    · rw [if_neg h1]
      push_neg at h1
      by_cases h2 : ¬(legalNameOf bh.legalNameH bookRow = none ∨
          legalNameOf gh.legalNameH g = none ∨
          legalNameOf bh.legalNameH bookRow = legalNameOf gh.legalNameH g)
      · rw [if_pos h2]
        simp only [Bool.false_eq_true, false_iff]
        intro hc
        exact h2 hc.2.1
      · rw [if_neg h2]
        push_neg at h2
        simp only [decide_eq_true_eq]
        constructor
        · intro hle
          refine ⟨h1, ?_, hle⟩
          tauto
        · intro hc
          exact hc.2.2

/-- C6 witness: with a one-element pool whose GSTIN matches and whose
taxable value differs by 1, the candidate is selected, removed, and the
record is tagged Partially Matched. -/
theorem c6_first_fit_fuzzy_witness :
    (phase2Step whGH whGH ⟨[wGstr1], [], []⟩ wBook2).fuzzyMatched
      = [] ++ [mkFuzzyRecord wBook2 wGstr1] ∧
    (phase2Step whGH whGH ⟨[wGstr1], [], []⟩ wBook2).pool = [] ∧
    assocFind (mkFuzzyRecord wBook2 wGstr1) "Recon Status"
      = some (CellVal.str "Partially Matched") := by
  have hfm : fuzzyMatchesB whGH whGH wBook2 wGstr1 = true := by
    simp only [fuzzyMatchesB]
    rw [if_neg (by decide), if_neg (by decide)]
    have hb : getColumnData wBook2 whGH.taxableH = 1000 := rfl
    have hg : getColumnData wGstr1 whGH.taxableH = 1001 := rfl
    rw [hb, hg]
    have : |(1000 : ℚ) - 1001| ≤ 2 := by norm_num
    exact decide_eq_true this
  have hfind : extractFirst (fuzzyMatchesB whGH whGH wBook2) [wGstr1] = some (wGstr1, []) := by
    simp [extractFirst, hfm]
  have h := (c6_first_fit_fuzzy whGH whGH ⟨[wGstr1], [], []⟩ wBook2).1 wGstr1 [] hfind
  exact ⟨h.1, h.2.1, h.2.2.2.1⟩

/-- C9 counterexample: a zero-row sheet fails with the empty-sheet error
raised before the header scan, not with the header-not-found error the
claim asserts for this case. -/
theorem c9_counterexample :
    parseSheet ([] : List (List CellVal)) = Except.error ParseError.emptySheet ∧
    parseSheet ([] : List (List CellVal)) ≠ Except.error ParseError.headerNotFound := by
  constructor
  · rfl
  · intro h
    rw [show parseSheet ([] : List (List CellVal)) = Except.error ParseError.emptySheet
      from rfl] at h
    simp at h

/-- C9 amended: for a sheet with at least one row, parsing fails with the
header-not-found error exactly when no row among the first min(15, row
count) rows contains, after stringify and trim, both a cell matching a GSTIN
alias and a cell matching an invoice-number alias case-insensitively; a
zero-row sheet instead fails earlier with the empty-sheet error. -/
theorem c9_header_not_found_iff_amended (sheetData : List (List CellVal))
    (hne : 1 ≤ sheetData.length) :
    parseSheet sheetData = Except.error ParseError.headerNotFound ↔
      ∀ i, i < min 15 sheetData.length →
        rowQualifies (rowHeaderStrings (sheetData.getD i [])) = false :=
  parseSheet_headerNotFound_iff sheetData hne

/-- C9 witness: a one-row sheet with no recognizable headers fails with the
header-not-found error. -/
theorem c9_header_not_found_witness :
    parseSheet [[CellVal.str "just a title"]] = Except.error ParseError.headerNotFound :=
  (c9_header_not_found_iff_amended [[CellVal.str "just a title"]] (by decide)).mpr (by decide)

end GSTR
